import Mathlib

/-!
# Verification of the cluster-lifecycle-manager scheduling core

Shallow embedding of `controller/cluster_list.go` (cluster registry and
scheduler) and `channel/git.go` (versioned config source), together with
proofs of the specified properties.

The Go registry is a `map[string]*clusterInfo` guarded by a mutex; we model
it as an association list of `(id, clusterInfo)` pairs.  The list order
stands for one arbitrary map-iteration order, so a theorem quantified over
all lists covers every iteration order the Go runtime may produce.
Timestamps (`time.Time`) are modelled as integers with `Before` as `<`.
-/

/-! ## Data model (`api.Cluster`, `clusterInfo`, `ClusterList`) -/

/-- `api.Cluster.Status` — the version fields used by `updatePriority`. -/
structure ClusterStatus where
  currentVersion : String
  nextVersion : String
deriving DecidableEq

/-- `api.Cluster` — the fields of the cluster record used by the registry. -/
structure Cluster where
  id : String
  infrastructureAccount : String
  lifecycleStatus : String
  status : ClusterStatus
deriving DecidableEq

/-- Modelled from the spec: the `LifecycleStatus` constant `Decommissioned`
(the constant's definition lives outside the provided sources). -/
def statusDecommissioned : String := "decommissioned"

/-- Modelled from the spec: the `LifecycleStatus` constant
`DecommissionRequested` (defined outside the provided sources). -/
def statusDecommissionRequested : String := "decommission-requested"

/-- `clusterInfo` — per-cluster scheduling metadata held by the registry. -/
structure clusterInfo where
  lastProcessed : Int
  processing : Bool
  cluster : Cluster
deriving DecidableEq

/-- `ClusterList` — the registry: account filter plus the cluster map
(modelled as an association list with unique keys). -/
structure ClusterList where
  accountFilter : String → Bool
  clusters : List (String × clusterInfo)

/-- Priority constant `updatePriorityNormal` (iota value 0). -/
def updatePriorityNormal : Nat := 0

/-- Priority constant `updatePriorityDecommissionRequested` (iota value 1). -/
def updatePriorityDecommissionRequested : Nat := 1

/-- Priority constant `updatePriorityAlreadyUpdating` (iota value 2). -/
def updatePriorityAlreadyUpdating : Nat := 2

/-- `updatePriority` — priority tier of a cluster (`cluster_list.go:88`). -/
def updatePriority (cluster : Cluster) : Nat :=
  if cluster.status.nextVersion ≠ "" ∧
      cluster.status.nextVersion ≠ cluster.status.currentVersion then
    updatePriorityAlreadyUpdating
  else if cluster.lifecycleStatus = statusDecommissionRequested then
    updatePriorityDecommissionRequested
  else
    updatePriorityNormal

/-- Lookup in the cluster map (`clusterList.clusters[id]`). -/
def lookupEntry : List (String × clusterInfo) → String → Option clusterInfo
  | [], _ => none
  | p :: rest, id => if p.1 = id then some p.2 else lookupEntry rest id

/-- One iteration of the first loop of `UpdateAvailable`
(`cluster_list.go:47-71`): filter decommissioned clusters and rejected
accounts, record the accepted id, then refresh or create the entry.  The
state is the cluster map paired with the accepted-id set
`availableClusterIds`. -/
def ingestOne (accountFilter : String → Bool)
    (st : List (String × clusterInfo) × List String) (cluster : Cluster) :
    List (String × clusterInfo) × List String :=
  if cluster.lifecycleStatus = statusDecommissioned then st
  else if accountFilter cluster.infrastructureAccount = false then st
  else
    let ids := st.2.insert cluster.id
    match lookupEntry st.1 cluster.id with
    | some info =>
      if info.processing then (st.1, ids)
      else
        (st.1.map (fun p =>
          if p.1 = cluster.id then (p.1, { p.2 with cluster := cluster }) else p), ids)
    | none =>
      (st.1 ++ [(cluster.id,
        { lastProcessed := 0, processing := false, cluster := cluster })], ids)

/-- `UpdateAvailable` (`cluster_list.go:41-84`): ingest the available
clusters, then drop every non-processing entry whose id was not accepted. -/
def ClusterList.UpdateAvailable (clusterList : ClusterList)
    (availableClusters : List Cluster) : ClusterList :=
  let st := availableClusters.foldl (ingestOne clusterList.accountFilter)
    (clusterList.clusters, [])
  { clusterList with
      clusters := st.1.filter (fun p => p.2.processing || decide (p.1 ∈ st.2)) }

/-- The loop of `SelectNext` (`cluster_list.go:108-124`): scan the entries,
skipping `processing` ones, keeping the best candidate together with its
cached priority (`nextCluster`, `nextClusterPriority`). -/
def selectLoop : List (String × clusterInfo) →
    Option ((String × clusterInfo) × Nat) → Option ((String × clusterInfo) × Nat)
  | [], acc => acc
  | p :: rest, acc =>
    if p.2.processing then selectLoop rest acc
    else
      match acc with
      | none => selectLoop rest (some (p, updatePriority p.2.cluster))
      | some (q, qpr) =>
        let priority := updatePriority p.2.cluster
        if priority > qpr ∨ (priority = qpr ∧ p.2.lastProcessed < q.2.lastProcessed) then
          selectLoop rest (some (p, priority))
        else
          selectLoop rest (some (q, qpr))

/-- `SelectNext` (`cluster_list.go:101-132`): pick the best non-processing
entry, mark it processing and return its cluster; `none` if every entry is
processing. -/
def ClusterList.SelectNext (clusterList : ClusterList) :
    Option Cluster × ClusterList :=
  match selectLoop clusterList.clusters none with
  | none => (none, clusterList)
  | some (q, _) =>
    (some q.2.cluster,
     { clusterList with
        clusters := clusterList.clusters.map (fun p =>
          if p.1 = q.1 then (p.1, { p.2 with processing := true }) else p) })

/-- `ClusterProcessed` (`cluster_list.go:135-143`): if the id is present,
clear its `processing` flag and stamp `lastProcessed` with the current
time; otherwise do nothing. -/
def ClusterList.ClusterProcessed (clusterList : ClusterList) (id : String)
    (now : Int) : ClusterList :=
  match lookupEntry clusterList.clusters id with
  | some _ =>
    { clusterList with
        clusters := clusterList.clusters.map (fun p =>
          if p.1 = id then
            (p.1, { p.2 with processing := false, lastProcessed := now })
          else p) }
  | none => clusterList

/-! ## Registry operation traces -/

/-- One call into the registry: `UpdateAvailable`, `SelectNext`, or
`ClusterProcessed` (the latter carrying the wall-clock time it observes). -/
inductive RegistryOp where
  | ingest (availableClusters : List Cluster)
  | selectNext
  | clusterProcessed (id : String) (now : Int)
deriving DecidableEq

/-- State transition of one registry call. -/
def applyOp (cl : ClusterList) : RegistryOp → ClusterList
  | .ingest cs => cl.UpdateAvailable cs
  | .selectNext => cl.SelectNext.2
  | .clusterProcessed id now => cl.ClusterProcessed id now

/-- Observable output of one registry call: the id of the cluster returned
by `SelectNext`, if any. -/
def opOut (cl : ClusterList) : RegistryOp → Option String
  | .selectNext =>
    match cl.SelectNext.1 with
    | some c => some c.id
    | none => none
  | _ => none

/-- A fresh registry (`NewClusterList`). -/
def emptyClusterList (accountFilter : String → Bool) : ClusterList :=
  { accountFilter := accountFilter, clusters := [] }

/-- Registry state after the first `n` calls of `ops`, starting empty. -/
def stateAt (accountFilter : String → Bool) (ops : List RegistryOp) (n : Nat) :
    ClusterList :=
  (ops.take n).foldl applyOp (emptyClusterList accountFilter)

/-- Output of the `n`-th call of `ops` (`none` when out of range or when the
call returns nothing). -/
def outAt (accountFilter : String → Bool) (ops : List RegistryOp) (n : Nat) :
    Option String :=
  match ops[n]? with
  | some op => opOut (stateAt accountFilter ops n) op
  | none => none

/-- The strict "is preferred over" relation of the `SelectNext` loop
(`cluster_list.go:119`): higher priority tier, or same tier and strictly
older `lastProcessed`. -/
def beats (a b : clusterInfo) : Prop :=
  updatePriority a.cluster > updatePriority b.cluster ∨
    (updatePriority a.cluster = updatePriority b.cluster ∧
      a.lastProcessed < b.lastProcessed)

instance (a b : clusterInfo) : Decidable (beats a b) := by
  unfold beats; exact inferInstance

/-- All entries of the cluster map carrying the given id. -/
def filterKey (cs : List (String × clusterInfo)) (id : String) :
    List (String × clusterInfo) :=
  cs.filter (fun p => decide (p.1 = id))

/-- The id is tracked and every entry carrying it is marked `processing`
(the state of an id between a successful `SelectNext` and the matching
`ClusterProcessed`). -/
def lockedOn (cs : List (String × clusterInfo)) (id : String) : Prop :=
  filterKey cs id ≠ [] ∧ ∀ p ∈ cs, p.1 = id → p.2.processing = true

/-- Every entry is stored under its own cluster id (invariant of the Go
map, whose keys are the cluster ids). -/
def keyConsistent (cs : List (String × clusterInfo)) : Prop :=
  ∀ p ∈ cs, p.2.cluster.id = p.1

/-! ## Versioned config source (`channel/git.go`) -/

/-- `channel.Config` — a configuration snapshot: resolved revision and the
path of the private checkout. -/
structure Config where
  version : String
  path : String
deriving DecidableEq

/-- `channel.Git` — the git-backed channel source (`git.go:20-27`). -/
structure Git where
  workdir : String
  repositoryURL : String
  repoName : String
  repoDir : String
  sshPrivateKeyFile : String
deriving DecidableEq

/-- A character of the RE2 class `[\w-]` (ASCII letters, digits, `_`, `-`). -/
def wordChar (c : Char) : Bool := c.isAlphanum || c = '_' || c = '-'

/-- Does a four-character block match `(.git)` (any character then `git`)? -/
def gitSuffix : List Char → Bool
  | [_, 'g', 'i', 't'] => true
  | _ => false

/-- Does `t` match the anchored tail `[\w-]+(.git)?$` of `repoNameRE`
(either all of `t` is a nonempty `[\w-]` run, or all but a final
four-character `.git` block is)? -/
def matchTail (t : List Char) : Bool :=
  (!t.isEmpty && t.all wordChar) ||
    (decide (5 ≤ t.length) && (t.take (t.length - 4)).all wordChar &&
      gitSuffix (t.drop (t.length - 4)))

/-- Group 1 of a successful tail match: the greedy `[\w-]+` run (all of `t`
when possible, otherwise `t` without its final `.git` block). -/
def tailGroup (t : List Char) : List Char :=
  if !t.isEmpty && t.all wordChar then t else t.take (t.length - 4)

/-- Leftmost match of `repoNameRE = /?([\w-]+)(.git)?$` (`git.go:52`):
scan start positions left to right; a match starting on `/` consumes it.
Returns capture group 1. -/
def findRepoName : List Char → Option (List Char)
  | [] => none
  | c :: rest =>
    let t := if c = '/' then rest else c :: rest
    if matchTail t then some (tailGroup t) else findRepoName rest

/-- `getRepoName` (`git.go:55-61`): parse the repository name from the
repository URI; `none` when `repoNameRE` does not match. -/
def getRepoName (repoURI : String) : Option String :=
  match findRepoName repoURI.data with
  | some w => some (String.mk w)
  | none => none

/-- Go `path.Join` of an absolute directory and a single relative path
segment (the only shape this code produces). -/
def pathJoin (dir name : String) : String := dir ++ "/" ++ name

/-- Oracle for the effects outside this code: the result of
`filepath.Abs(workdir)`, the outcomes of `git` subprocess invocations
(`none` = success), the captured output of output-producing invocations,
and the nanosecond wall clock read by `time.Now().UTC().UnixNano()`
(modelled as a nonnegative nanosecond count). -/
structure GitEnv where
  absWorkdir : Except String String
  runOk : List String → Option String
  runOut : List String → Except String String
  nowNano : Nat

/-- `g.cmd` (`git.go:145-153`): run a `git` subprocess with the given
arguments (the `GIT_SSH_COMMAND` environment is part of the abstracted
subprocess behaviour).  Returns the outcome and logs the invocation. -/
def runCmd (env : GitEnv) (args : List String) :
    Except String Unit × List (List String) :=
  match env.runOk args with
  | none => (.ok (), [args])
  | some e => (.error e, [args])

/-- `NewGit` (`git.go:30-50`): resolve the working directory, parse the
repository name, and build the `Git` value.  The second component logs the
`git` subprocess invocations made during construction: the body makes
none. -/
def NewGit (env : GitEnv) (repositoryURL sshPrivateKeyFile : String) :
    Except String Git × List (List String) :=
  match env.absWorkdir with
  | .error e => (.error e, [])
  | .ok absWorkdir =>
    match getRepoName repositoryURL with
    | none =>
      (.error ("could not parse repository name from uri: " ++ repositoryURL), [])
    | some repoName =>
      (.ok { workdir := absWorkdir, repositoryURL := repositoryURL,
             repoName := repoName, repoDir := pathJoin absWorkdir repoName,
             sshPrivateKeyFile := sshPrivateKeyFile }, [])

/-- `localClone` (`git.go:116-131`): clone the mirror into a per-call
directory named `{repoName}_{channel}_{nanosecondTimestamp}` under the
working directory, then check out the channel. -/
def Git.localClone (g : Git) (env : GitEnv) (channel : String) :
    Except String String × List (List String) :=
  let repoDir := pathJoin g.workdir
    (g.repoName ++ "_" ++ channel ++ "_" ++ Nat.repr env.nowNano)
  let srcRepoUrl := "file://" ++ g.repoDir
  match runCmd env ["clone", srcRepoUrl, repoDir] with
  | (.error e, t1) => (.error e, t1)
  | (.ok _, t1) =>
    match runCmd env ["-C", repoDir, "checkout", channel] with
    | (.error e, t2) => (.error e, t1 ++ t2)
    | (.ok _, t2) => (.ok repoDir, t1 ++ t2)

/-- `strings.TrimSpace`: strip leading and trailing whitespace (expressed
on the character list so that it evaluates by kernel reduction). -/
def trimStr (s : String) : String :=
  String.mk
    (((s.data.dropWhile (fun c => c.isWhitespace)).reverse.dropWhile
      (fun c => c.isWhitespace)).reverse)

/-- `currentRevision` (`git.go:134-142`): `git rev-parse HEAD` in the
checkout, with surrounding whitespace trimmed. -/
def currentRevision (env : GitEnv) (repoDir : String) :
    Except String String × List (List String) :=
  match env.runOut ["-C", repoDir, "rev-parse", "HEAD"] with
  | .error e => (.error e, [["-C", repoDir, "rev-parse", "HEAD"]])
  | .ok out => (.ok (trimStr out), [["-C", repoDir, "rev-parse", "HEAD"]])

/-- `Get` (`git.go:64-79`): produce a private checkout of the channel and
return its resolved revision and path. -/
def Git.Get (g : Git) (env : GitEnv) (channel : String) :
    Except String Config × List (List String) :=
  match g.localClone env channel with
  | (.error e, t1) => (.error e, t1)
  | (.ok repoDir, t1) =>
    match currentRevision env repoDir with
    | (.error e, t2) => (.error e, t1 ++ t2)
    | (.ok version, t2) =>
      (.ok { version := version, path := repoDir }, t1 ++ t2)

/-- Character-list prefix test (the string prefix test, made explicit so
that it evaluates by kernel reduction). -/
def listPrefix : List Char → List Char → Bool
  | [], _ => true
  | _ :: _, [] => false
  | a :: as, b :: bs => a = b && listPrefix as bs

/-- Is `q` the path `p` itself or a path inside the tree rooted at `p`? -/
def inSubtree (p q : String) : Bool :=
  q = p || listPrefix (p ++ "/").data q.data

/-- `os.RemoveAll`: remove the whole subtree rooted at `p` from the
filesystem (modelled as the list of existing paths); removing a
non-existent path is not an error, so the error component is always
`none`. -/
def removeAll (fs : List String) (p : String) : List String × Option String :=
  (fs.filter (fun q => !inSubtree p q), none)

/-- `Delete` (`git.go:83-85`): `os.RemoveAll(config.Path)`. -/
def Git.Delete (_g : Git) (fs : List String) (config : Config) :
    List String × Option String :=
  removeAll fs config.path

/-! ## Decimal rendering helpers (for the checkout-directory names) -/

/-- Numeric value of a decimal digit character. -/
def digitVal (c : Char) : Nat := c.toNat - 48

/-- Is `c` one of `0`–`9`? -/
def isDigitCh (c : Char) : Bool := 48 ≤ c.toNat && c.toNat ≤ 57

/-- Decimal evaluation of a digit string, with accumulator. -/
def valAux (a : Nat) (l : List Char) : Nat :=
  l.foldl (fun a c => 10 * a + digitVal c) a

/-- Decimal value of a digit string. -/
def charListVal (l : List Char) : Nat := valAux 0 l

/-! ## Concrete fixtures for witnesses and counterexamples -/

/-- A normal cluster (not mid-update, not decommission-requested). -/
def clusterA : Cluster :=
  { id := "a", infrastructureAccount := "acc", lifecycleStatus := "ready",
    status := { currentVersion := "v1", nextVersion := "" } }

/-- A decommission-requested cluster that is not mid-update. -/
def clusterB : Cluster :=
  { id := "b", infrastructureAccount := "acc",
    lifecycleStatus := statusDecommissionRequested,
    status := { currentVersion := "v1", nextVersion := "" } }

/-- A cluster already mid-update. -/
def clusterC : Cluster :=
  { id := "c", infrastructureAccount := "acc", lifecycleStatus := "ready",
    status := { currentVersion := "v1", nextVersion := "v2" } }

/-- A cluster that is simultaneously mid-update and decommission-requested. -/
def clusterD : Cluster :=
  { id := "d", infrastructureAccount := "acc",
    lifecycleStatus := statusDecommissionRequested,
    status := { currentVersion := "v1", nextVersion := "v2" } }

/-- A decommissioned cluster sharing its id with `clusterA`. -/
def clusterADecom : Cluster :=
  { id := "a", infrastructureAccount := "acc",
    lifecycleStatus := statusDecommissioned,
    status := { currentVersion := "v1", nextVersion := "" } }

/-- Registry entry for a cluster with the given scheduling metadata. -/
def entryOf (t : Int) (processing : Bool) (c : Cluster) :
    String × clusterInfo :=
  (c.id, { lastProcessed := t, processing := processing, cluster := c })

/-- A sample constructed `Git` value. -/
def gitEx : Git :=
  { workdir := "/work", repositoryURL := "git@example.com:org/repo.git",
    repoName := "repo", repoDir := "/work/repo", sshPrivateKeyFile := "" }

/-- A sample environment in which every subprocess succeeds. -/
def envEx1 : GitEnv :=
  { absWorkdir := .ok "/work", runOk := fun _ => none,
    runOut := fun _ => .ok "abc123", nowNano := 7 }

/-- A second sample environment, identical clock, different revision
output (a distinct concurrent call). -/
def envEx2 : GitEnv :=
  { absWorkdir := .ok "/work", runOk := fun _ => none,
    runOut := fun _ => .ok "def456", nowNano := 7 }

/-- A second normal cluster, distinct from `clusterA`. -/
def clusterA2 : Cluster :=
  { id := "a2", infrastructureAccount := "acc", lifecycleStatus := "ready",
    status := { currentVersion := "v1", nextVersion := "" } }

/-- A registry holding the three scenario clusters of the priority test. -/
def clABCw : ClusterList :=
  { accountFilter := fun _ => true,
    clusters := [entryOf 1 false clusterA, entryOf 9 false clusterB,
      entryOf 5 false clusterC] }

/-- A registry holding two eligible normal clusters with `lastProcessed`
values 1 < 2. -/
def clXYw : ClusterList :=
  { accountFilter := fun _ => true,
    clusters := [entryOf 2 false clusterA2, entryOf 1 false clusterA] }

/-- A registry tracking `clusterA` with an outstanding selection
(`processing = true`). -/
def clPw : ClusterList :=
  { accountFilter := fun _ => true, clusters := [entryOf 3 true clusterA] }

/-- A registry tracking `clusterA` with no outstanding selection. -/
def clNPw : ClusterList :=
  { accountFilter := fun _ => true, clusters := [entryOf 3 false clusterA] }

/-- A third sample environment: same behaviour as `envEx1` but a later
nanosecond clock. -/
def envEx3 : GitEnv :=
  { absWorkdir := .ok "/work", runOk := fun _ => none,
    runOut := fun _ => .ok "abc123", nowNano := 8 }

/-- A sample trace: ingest one cluster, select it, report it processed,
select it again. -/
def opsW : List RegistryOp :=
  [.ingest [clusterA], .selectNext, .clusterProcessed "a" 5, .selectNext]

/-! ## Lemmas: the `SelectNext` scan -/

lemma beats_irrefl (a : clusterInfo) : ¬ beats a a := by
  unfold beats; omega

lemma beats_chain {a b c : clusterInfo} (h1 : beats a b) (h2 : ¬ beats a c) :
    ¬ beats b c := by
  unfold beats at *; omega

lemma beats_chain2 {a b c : clusterInfo} (h1 : ¬ beats a b) (h2 : ¬ beats b c) :
    ¬ beats a c := by
  unfold beats at *; omega

lemma accInv_single (p : String × clusterInfo) (hp : p.2.processing = false) :
    ∀ q qpr, some (p, updatePriority p.2.cluster) =
        (some (q, qpr) : Option ((String × clusterInfo) × Nat)) →
      q.2.processing = false ∧ qpr = updatePriority q.2.cluster := by
  intro q qpr h
  simp only [Option.some.injEq, Prod.mk.injEq] at h
  obtain ⟨rfl, rfl⟩ := h
  exact ⟨hp, rfl⟩

/-- Full characterisation of the `SelectNext` scan: starting from a sound
accumulator, the scan returns `none` only if the accumulator was empty and
every entry is `processing`; and when it returns an entry, that entry is
non-processing, comes from the accumulator or the list, and is not beaten
by the accumulator nor by any non-processing entry of the list. -/
theorem selectLoop_spec (rest : List (String × clusterInfo)) :
    ∀ acc : Option ((String × clusterInfo) × Nat),
      (∀ q qpr, acc = some (q, qpr) →
        q.2.processing = false ∧ qpr = updatePriority q.2.cluster) →
      ((selectLoop rest acc = none →
          acc = none ∧ ∀ p ∈ rest, p.2.processing = true) ∧
       (∀ q qpr, selectLoop rest acc = some (q, qpr) →
          q.2.processing = false ∧ qpr = updatePriority q.2.cluster ∧
          (acc = some (q, qpr) ∨ q ∈ rest) ∧
          (∀ q0 q0pr, acc = some (q0, q0pr) → ¬ beats q0.2 q.2) ∧
          (∀ p ∈ rest, p.2.processing = false → ¬ beats p.2 q.2))) := by
  induction rest with
  | nil =>
    intro acc hacc
    constructor
    · intro h
      exact ⟨h, by simp⟩
    · intro q qpr h
      simp only [selectLoop] at h
      obtain ⟨hproc, hpr⟩ := hacc q qpr h
      refine ⟨hproc, hpr, Or.inl h, ?_, by simp⟩
      intro q0 q0pr h0
      have h2 : (some (q0, q0pr) : Option ((String × clusterInfo) × Nat)) =
          some (q, qpr) := h0.symm.trans h
      simp only [Option.some.injEq, Prod.mk.injEq] at h2
      rw [h2.1]
      exact beats_irrefl q.2
  | cons p rest ih =>
    intro acc hacc
    by_cases hp : p.2.processing = true
    · have hloop : selectLoop (p :: rest) acc = selectLoop rest acc := by
        simp [selectLoop, hp]
      obtain ⟨ih1, ih2⟩ := ih acc hacc
      constructor
      · intro h
        rw [hloop] at h
        obtain ⟨h1, h2⟩ := ih1 h
        refine ⟨h1, ?_⟩
        intro r hr
        rcases List.mem_cons.mp hr with rfl | hr2
        · exact hp
        · exact h2 r hr2
      · intro q qpr h
        rw [hloop] at h
        obtain ⟨h1, h2, h3, h4, h5⟩ := ih2 q qpr h
        refine ⟨h1, h2, ?_, h4, ?_⟩
        · rcases h3 with h3 | h3
          · exact Or.inl h3
          · exact Or.inr (List.mem_cons_of_mem _ h3)
        · intro r hr hrproc
          rcases List.mem_cons.mp hr with rfl | hr2
          · rw [hrproc] at hp; exact absurd hp (by simp)
          · exact h5 r hr2 hrproc
    · have hp' : p.2.processing = false := by
        revert hp; cases p.2.processing <;> simp
      cases acc with
      | none =>
        have hloop : selectLoop (p :: rest) none =
            selectLoop rest (some (p, updatePriority p.2.cluster)) := by
          simp [selectLoop, hp']
        obtain ⟨ih1, ih2⟩ :=
          ih (some (p, updatePriority p.2.cluster)) (accInv_single p hp')
        constructor
        · intro h
          rw [hloop] at h
          obtain ⟨h1, -⟩ := ih1 h
          exact absurd h1 (by simp)
        · intro q qpr h
          rw [hloop] at h
          obtain ⟨h1, h2, h3, h4, h5⟩ := ih2 q qpr h
          refine ⟨h1, h2, Or.inr ?_, by simp, ?_⟩
          · rcases h3 with h3 | h3
            · simp only [Option.some.injEq, Prod.mk.injEq] at h3
              rw [← h3.1]
              exact List.mem_cons_self p rest
            · exact List.mem_cons_of_mem _ h3
          · intro r hr hrproc
            rcases List.mem_cons.mp hr with rfl | hr2
            · exact h4 r (updatePriority r.2.cluster) rfl
            · exact h5 r hr2 hrproc
      | some acc0 =>
        obtain ⟨q0, q0pr⟩ := acc0
        obtain ⟨hq0proc, hq0pr⟩ := hacc q0 q0pr rfl
        by_cases hb : updatePriority p.2.cluster > q0pr ∨
            (updatePriority p.2.cluster = q0pr ∧
              p.2.lastProcessed < q0.2.lastProcessed)
        · have hbeats : beats p.2 q0.2 := by
            rw [hq0pr] at hb; exact hb
          have hloop : selectLoop (p :: rest) (some (q0, q0pr)) =
              selectLoop rest (some (p, updatePriority p.2.cluster)) := by
            simp only [selectLoop, hp']
            simp [hb]
          obtain ⟨ih1, ih2⟩ :=
            ih (some (p, updatePriority p.2.cluster)) (accInv_single p hp')
          constructor
          · intro h
            rw [hloop] at h
            obtain ⟨h1, -⟩ := ih1 h
            exact absurd h1 (by simp)
          · intro q qpr h
            rw [hloop] at h
            obtain ⟨h1, h2, h3, h4, h5⟩ := ih2 q qpr h
            have hnb : ¬ beats p.2 q.2 :=
              h4 p (updatePriority p.2.cluster) rfl
            refine ⟨h1, h2, Or.inr ?_, ?_, ?_⟩
            · rcases h3 with h3 | h3
              · simp only [Option.some.injEq, Prod.mk.injEq] at h3
                rw [← h3.1]
                exact List.mem_cons_self p rest
              · exact List.mem_cons_of_mem _ h3
            · intro a apr h0
              simp only [Option.some.injEq, Prod.mk.injEq] at h0
              rw [← h0.1]
              exact beats_chain hbeats hnb
            · intro r hr hrproc
              rcases List.mem_cons.mp hr with rfl | hr2
              · exact hnb
              · exact h5 r hr2 hrproc
        · have hnbeats : ¬ beats p.2 q0.2 := by
            rw [hq0pr] at hb; exact hb
          have hloop : selectLoop (p :: rest) (some (q0, q0pr)) =
              selectLoop rest (some (q0, q0pr)) := by
            simp only [selectLoop, hp']
            simp [hb]
          obtain ⟨ih1, ih2⟩ := ih (some (q0, q0pr)) hacc
          constructor
          · intro h
            rw [hloop] at h
            obtain ⟨h1, -⟩ := ih1 h
            exact absurd h1 (by simp)
          · intro q qpr h
            rw [hloop] at h
            obtain ⟨h1, h2, h3, h4, h5⟩ := ih2 q qpr h
            have hq0nb : ¬ beats q0.2 q.2 := h4 q0 q0pr rfl
            refine ⟨h1, h2, ?_, ?_, ?_⟩
            · rcases h3 with h3 | h3
              · exact Or.inl h3
              · exact Or.inr (List.mem_cons_of_mem _ h3)
            · intro a apr h0
              simp only [Option.some.injEq, Prod.mk.injEq] at h0
              rw [← h0.1]
              exact hq0nb
            · intro r hr hrproc
              rcases List.mem_cons.mp hr with rfl | hr2
              · exact beats_chain2 hnbeats hq0nb
              · exact h5 r hr2 hrproc


/-! ## Lemmas: the cluster map as an association list -/

lemma mem_filterKey {cs : List (String × clusterInfo)} {id : String}
    {p : String × clusterInfo} : p ∈ filterKey cs id ↔ p ∈ cs ∧ p.1 = id := by
  simp [filterKey, List.mem_filter]

lemma filterKey_nil (id : String) : filterKey [] id = [] := rfl

lemma filterKey_cons (p : String × clusterInfo)
    (rest : List (String × clusterInfo)) (id : String) :
    filterKey (p :: rest) id =
      if p.1 = id then p :: filterKey rest id else filterKey rest id := by
  by_cases h : p.1 = id <;> simp [filterKey, List.filter_cons, h]

lemma lookupEntry_filterKey (cs : List (String × clusterInfo)) (id : String) :
    lookupEntry cs id = (filterKey cs id).head?.map (fun p => p.2) := by
  induction cs with
  | nil => rfl
  | cons p rest ih =>
    rw [filterKey_cons]
    by_cases h : p.1 = id
    · rw [if_pos h]
      simp [lookupEntry, h]
    · rw [if_neg h]
      simp [lookupEntry, h, ih]

lemma list_map_self {g : String × clusterInfo → String × clusterInfo}
    (l : List (String × clusterInfo)) (h : ∀ p ∈ l, g p = p) : l.map g = l := by
  induction l with
  | nil => rfl
  | cons p rest ih =>
    rw [List.map_cons, h p (List.mem_cons_self p rest),
      ih (fun r hr => h r (List.mem_cons_of_mem _ hr))]

lemma filterKey_map_keep {g : String × clusterInfo → String × clusterInfo}
    (hg : ∀ p, (g p).1 = p.1) (cs : List (String × clusterInfo)) (id : String) :
    filterKey (cs.map g) id = (filterKey cs id).map g := by
  induction cs with
  | nil => rfl
  | cons p rest ih =>
    rw [List.map_cons, filterKey_cons, filterKey_cons, hg p]
    by_cases h : p.1 = id
    · rw [if_pos h, if_pos h, List.map_cons, ih]
    · rw [if_neg h, if_neg h, ih]

lemma filterKey_map_other {g : String × clusterInfo → String × clusterInfo}
    {cs : List (String × clusterInfo)} {id : String}
    (hg : ∀ p, (g p).1 = p.1) (hid : ∀ p ∈ cs, p.1 = id → g p = p) :
    filterKey (cs.map g) id = filterKey cs id := by
  rw [filterKey_map_keep hg]
  apply list_map_self
  intro p hp
  obtain ⟨h1, h2⟩ := mem_filterKey.mp hp
  exact hid p h1 h2

lemma filterKey_append (cs ds : List (String × clusterInfo)) (id : String) :
    filterKey (cs ++ ds) id = filterKey cs id ++ filterKey ds id := by
  simp [filterKey, List.filter_append]

lemma filterKey_filter_keep {cs : List (String × clusterInfo)} {id : String}
    {keep : String × clusterInfo → Bool}
    (h : ∀ p ∈ cs, p.1 = id → keep p = true) :
    filterKey (cs.filter keep) id = filterKey cs id := by
  induction cs with
  | nil => rfl
  | cons p rest ih =>
    have ih2 := ih (fun r hr => h r (List.mem_cons_of_mem _ hr))
    rw [List.filter_cons]
    by_cases hk : p.1 = id
    · have hkeep := h p (List.mem_cons_self p rest) hk
      rw [hkeep, if_pos rfl, filterKey_cons, filterKey_cons, if_pos hk,
        if_pos hk, ih2]
    · by_cases hkeep : keep p = true
      · rw [hkeep, if_pos rfl, filterKey_cons, filterKey_cons, if_neg hk,
          if_neg hk, ih2]
      · have hkeep2 : keep p = false := by
          revert hkeep; cases keep p <;> simp
        rw [hkeep2, if_neg Bool.false_ne_true, filterKey_cons, if_neg hk, ih2]

lemma filterKey_filter_drop {cs : List (String × clusterInfo)} {id : String}
    {keep : String × clusterInfo → Bool}
    (h : ∀ p ∈ cs, p.1 = id → keep p = false) :
    filterKey (cs.filter keep) id = [] := by
  induction cs with
  | nil => rfl
  | cons p rest ih =>
    have ih2 := ih (fun r hr => h r (List.mem_cons_of_mem _ hr))
    rw [List.filter_cons]
    by_cases hkeep : keep p = true
    · have hk : p.1 ≠ id := by
        intro hk
        rw [h p (List.mem_cons_self p rest) hk] at hkeep
        exact Bool.false_ne_true hkeep
      rw [hkeep, if_pos rfl, filterKey_cons, if_neg hk, ih2]
    · have hkeep2 : keep p = false := by
        revert hkeep; cases keep p <;> simp
      rw [hkeep2, if_neg Bool.false_ne_true, ih2]

lemma lockedOn_lookup {cs : List (String × clusterInfo)} {id : String}
    (h : lockedOn cs id) :
    ∃ info, lookupEntry cs id = some info ∧ info.processing = true := by
  obtain ⟨hne, hall⟩ := h
  rcases hfk : filterKey cs id with _ | ⟨p, t⟩
  · exact absurd hfk hne
  · refine ⟨p.2, by rw [lookupEntry_filterKey, hfk]; rfl, ?_⟩
    have hp : p ∈ filterKey cs id := by
      rw [hfk]; exact List.mem_cons_self p t
    obtain ⟨hmem, hkey⟩ := mem_filterKey.mp hp
    exact hall p hmem hkey

lemma lookupEntry_none_iff {cs : List (String × clusterInfo)} {id : String} :
    lookupEntry cs id = none ↔ filterKey cs id = [] := by
  rw [lookupEntry_filterKey]
  rcases hfk : filterKey cs id with _ | ⟨p, t⟩ <;> simp

/-! ## Lemmas: `ingestOne` branch equations -/

lemma ingestOne_skip {f : String → Bool}
    {st : List (String × clusterInfo) × List String} {c : Cluster}
    (h : c.lifecycleStatus = statusDecommissioned ∨
      f c.infrastructureAccount = false) :
    ingestOne f st c = st := by
  rcases h with h | h
  · simp [ingestOne, h]
  · by_cases h2 : c.lifecycleStatus = statusDecommissioned
    · simp [ingestOne, h2]
    · simp [ingestOne, h2, h]

lemma ingestOne_eq_create {f : String → Bool}
    {cs : List (String × clusterInfo)} {ids : List String} {c : Cluster}
    (h1 : c.lifecycleStatus ≠ statusDecommissioned)
    (h2 : f c.infrastructureAccount = true)
    (hl : lookupEntry cs c.id = none) :
    ingestOne f (cs, ids) c =
      (cs ++ [(c.id, { lastProcessed := 0, processing := false, cluster := c })],
       ids.insert c.id) := by
  simp [ingestOne, h1, h2, hl]

lemma ingestOne_eq_refresh {f : String → Bool}
    {cs : List (String × clusterInfo)} {ids : List String} {c : Cluster}
    {info : clusterInfo}
    (h1 : c.lifecycleStatus ≠ statusDecommissioned)
    (h2 : f c.infrastructureAccount = true)
    (hl : lookupEntry cs c.id = some info) (hproc : info.processing = false) :
    ingestOne f (cs, ids) c =
      (cs.map (fun p =>
        if p.1 = c.id then (p.1, { p.2 with cluster := c }) else p),
       ids.insert c.id) := by
  simp [ingestOne, h1, h2, hl, hproc]

lemma ingestOne_eq_keep {f : String → Bool}
    {cs : List (String × clusterInfo)} {ids : List String} {c : Cluster}
    {info : clusterInfo}
    (h1 : c.lifecycleStatus ≠ statusDecommissioned)
    (h2 : f c.infrastructureAccount = true)
    (hl : lookupEntry cs c.id = some info) (hproc : info.processing = true) :
    ingestOne f (cs, ids) c = (cs, ids.insert c.id) := by
  simp [ingestOne, h1, h2, hl, hproc]

lemma ingestOne_fst_other {f : String → Bool}
    {cs : List (String × clusterInfo)} {ids : List String} {c : Cluster}
    {id : String} (hne : c.id ≠ id) :
    filterKey ((ingestOne f (cs, ids) c).1) id = filterKey cs id := by
  by_cases h1 : c.lifecycleStatus = statusDecommissioned
  · rw [ingestOne_skip (Or.inl h1)]
  · cases hf : f c.infrastructureAccount with
    | false => rw [ingestOne_skip (Or.inr hf)]
    | true =>
      rcases hl : lookupEntry cs c.id with _ | info
      · rw [ingestOne_eq_create h1 hf hl]
        dsimp only
        rw [filterKey_append, filterKey_cons, if_neg hne, filterKey_nil,
          List.append_nil]
      · by_cases hproc : info.processing = true
        · rw [ingestOne_eq_keep h1 hf hl hproc]
        · have hproc2 : info.processing = false := by
            revert hproc; cases info.processing <;> simp
          rw [ingestOne_eq_refresh h1 hf hl hproc2]
          dsimp only
          apply filterKey_map_other
          · intro p
            by_cases hp : p.1 = c.id <;> simp [hp]
          · intro p _ hpid
            have hnc : p.1 ≠ c.id := by
              rw [hpid]; exact fun hc => hne hc.symm
            rw [if_neg hnc]

lemma lockedOn_iff_filterKey {cs : List (String × clusterInfo)} {id : String} :
    lockedOn cs id ↔
      (filterKey cs id ≠ [] ∧ ∀ p ∈ filterKey cs id, p.2.processing = true) := by
  unfold lockedOn
  constructor
  · rintro ⟨h1, h2⟩
    exact ⟨h1, fun p hp =>
      h2 p (mem_filterKey.mp hp).1 (mem_filterKey.mp hp).2⟩
  · rintro ⟨h1, h2⟩
    exact ⟨h1, fun p hp hk => h2 p (mem_filterKey.mpr ⟨hp, hk⟩)⟩

lemma lockedOn_of_filterKey_eq {cs ds : List (String × clusterInfo)}
    {id : String} (h : filterKey ds id = filterKey cs id)
    (hlock : lockedOn cs id) : lockedOn ds id := by
  rw [lockedOn_iff_filterKey] at *
  rw [h]
  exact hlock

lemma ingestOne_fst_locked {f : String → Bool}
    {cs : List (String × clusterInfo)} {ids : List String} {c : Cluster}
    {id : String} (hid : c.id = id) (hlock : lockedOn cs id) :
    (ingestOne f (cs, ids) c).1 = cs := by
  by_cases h1 : c.lifecycleStatus = statusDecommissioned
  · rw [ingestOne_skip (Or.inl h1)]
  · cases hf : f c.infrastructureAccount with
    | false => rw [ingestOne_skip (Or.inr hf)]
    | true =>
      obtain ⟨info, hl, hproc⟩ := lockedOn_lookup hlock
      rw [← hid] at hl
      rw [ingestOne_eq_keep h1 hf hl hproc]

lemma ingestOne_snd_subset {f : String → Bool}
    {cs : List (String × clusterInfo)} {ids : List String} {c : Cluster}
    {x : String} (hmem : x ∈ (ingestOne f (cs, ids) c).2) :
    x = c.id ∨ x ∈ ids := by
  by_cases h1 : c.lifecycleStatus = statusDecommissioned
  · rw [ingestOne_skip (Or.inl h1)] at hmem
    exact Or.inr hmem
  · cases hf : f c.infrastructureAccount with
    | false =>
      rw [ingestOne_skip (Or.inr hf)] at hmem
      exact Or.inr hmem
    | true =>
      rcases hl : lookupEntry cs c.id with _ | info
      · rw [ingestOne_eq_create h1 hf hl] at hmem
        exact List.mem_insert_iff.mp hmem
      · by_cases hproc : info.processing = true
        · rw [ingestOne_eq_keep h1 hf hl hproc] at hmem
          exact List.mem_insert_iff.mp hmem
        · have hproc2 : info.processing = false := by
            revert hproc; cases info.processing <;> simp
          rw [ingestOne_eq_refresh h1 hf hl hproc2] at hmem
          exact List.mem_insert_iff.mp hmem

/-! ## Lemmas: the ingest fold of `UpdateAvailable` -/

lemma fold_untouched {f : String → Bool} {id : String}
    (available : List Cluster) :
    ∀ cs ids,
      (∀ c ∈ available, c.id = id →
        c.lifecycleStatus = statusDecommissioned ∨
          f c.infrastructureAccount = false) →
      id ∉ ids →
      filterKey ((available.foldl (ingestOne f) (cs, ids)).1) id =
          filterKey cs id ∧
        id ∉ (available.foldl (ingestOne f) (cs, ids)).2 := by
  induction available with
  | nil => intro cs ids _ hid; exact ⟨rfl, hid⟩
  | cons c rest ih =>
    intro cs ids hav hid
    rw [List.foldl_cons]
    by_cases hcid : c.id = id
    · have hskip := hav c (List.mem_cons_self c rest) hcid
      rw [ingestOne_skip hskip]
      exact ih cs ids (fun r hr => hav r (List.mem_cons_of_mem _ hr)) hid
    · have h1 : filterKey ((ingestOne f (cs, ids) c).1) id = filterKey cs id :=
        ingestOne_fst_other hcid
      have h2 : id ∉ (ingestOne f (cs, ids) c).2 := by
        intro hmem
        rcases ingestOne_snd_subset hmem with h | h
        · exact hcid h.symm
        · exact hid h
      obtain ⟨ih1, ih2⟩ := ih (ingestOne f (cs, ids) c).1
        (ingestOne f (cs, ids) c).2
        (fun r hr => hav r (List.mem_cons_of_mem _ hr)) h2
      exact ⟨ih1.trans h1, ih2⟩

lemma fold_locked {f : String → Bool} {id : String} (available : List Cluster) :
    ∀ cs ids, lockedOn cs id →
      filterKey ((available.foldl (ingestOne f) (cs, ids)).1) id =
        filterKey cs id := by
  induction available with
  | nil => intro cs ids _; rfl
  | cons c rest ih =>
    intro cs ids hlock
    rw [List.foldl_cons]
    by_cases hcid : c.id = id
    · have heq : (ingestOne f (cs, ids) c).1 = cs :=
        ingestOne_fst_locked hcid hlock
      have step := ih (ingestOne f (cs, ids) c).1 (ingestOne f (cs, ids) c).2
        (by rw [heq]; exact hlock)
      exact step.trans (by rw [heq])
    · have h1 : filterKey ((ingestOne f (cs, ids) c).1) id = filterKey cs id :=
        ingestOne_fst_other hcid
      have step := ih (ingestOne f (cs, ids) c).1 (ingestOne f (cs, ids) c).2
        (lockedOn_of_filterKey_eq h1 hlock)
      exact step.trans h1

/-! ## Lemmas: operation-level facts -/

lemma UpdateAvailable_def (cl : ClusterList) (available : List Cluster) :
    cl.UpdateAvailable available =
      { cl with clusters :=
          ((available.foldl (ingestOne cl.accountFilter)
              (cl.clusters, [])).1.filter
            (fun p => p.2.processing ||
              decide (p.1 ∈
                (available.foldl (ingestOne cl.accountFilter)
                  (cl.clusters, [])).2))) } := rfl

lemma selectLoop_none_sound {cs : List (String × clusterInfo)}
    (h : selectLoop cs none = none) : ∀ p ∈ cs, p.2.processing = true :=
  ((selectLoop_spec cs none (fun _ _ h0 => nomatch h0)).1 h).2

lemma selectLoop_some_sound {cs : List (String × clusterInfo)}
    {q : String × clusterInfo} {qpr : Nat}
    (h : selectLoop cs none = some (q, qpr)) :
    q.2.processing = false ∧ qpr = updatePriority q.2.cluster ∧ q ∈ cs ∧
      ∀ p ∈ cs, p.2.processing = false → ¬ beats p.2 q.2 := by
  obtain ⟨h1, h2, h3, -, h5⟩ :=
    (selectLoop_spec cs none (fun _ _ h0 => nomatch h0)).2 q qpr h
  refine ⟨h1, h2, ?_, h5⟩
  rcases h3 with h3 | h3
  · exact nomatch h3
  · exact h3

lemma UpdateAvailable_locked {cl : ClusterList} {id : String}
    (hlock : lockedOn cl.clusters id) (available : List Cluster) :
    filterKey ((cl.UpdateAvailable available).clusters) id =
      filterKey cl.clusters id := by
  rw [UpdateAvailable_def]
  dsimp only
  have hfold := @fold_locked cl.accountFilter id available cl.clusters [] hlock
  have hlock2 : lockedOn
      ((available.foldl (ingestOne cl.accountFilter) (cl.clusters, [])).1) id :=
    lockedOn_of_filterKey_eq hfold hlock
  have hkeep : ∀ p ∈
      (available.foldl (ingestOne cl.accountFilter) (cl.clusters, [])).1,
      p.1 = id →
      (p.2.processing ||
        decide (p.1 ∈
          (available.foldl (ingestOne cl.accountFilter) (cl.clusters, [])).2))
        = true := by
    intro p hp hk
    rw [hlock2.2 p hp hk]
    rfl
  rw [filterKey_filter_keep hkeep, hfold]

lemma lockedOn_UpdateAvailable {cl : ClusterList} {id : String}
    (hlock : lockedOn cl.clusters id) (available : List Cluster) :
    lockedOn ((cl.UpdateAvailable available).clusters) id :=
  lockedOn_of_filterKey_eq (UpdateAvailable_locked hlock available) hlock

lemma lockedOn_SelectNext {cl : ClusterList} {id : String}
    (hlock : lockedOn cl.clusters id) :
    lockedOn (cl.SelectNext.2.clusters) id := by
  unfold ClusterList.SelectNext
  rcases hsl : selectLoop cl.clusters none with _ | ⟨q, qpr⟩
  · exact hlock
  · dsimp only
    constructor
    · have hg : ∀ p : String × clusterInfo,
          ((if p.1 = q.1 then (p.1, { p.2 with processing := true }) else p)).1
            = p.1 := by
        intro p
        by_cases hp : p.1 = q.1 <;> simp [hp]
      rw [filterKey_map_keep hg]
      intro hmap
      exact hlock.1 (List.map_eq_nil_iff.mp hmap)
    · intro p hp hk
      obtain ⟨r, hr, rfl⟩ := List.mem_map.mp hp
      by_cases hq : r.1 = q.1
      · simp [hq]
      · rw [if_neg hq] at *
        exact hlock.2 r hr hk

lemma lockedOn_ClusterProcessed {cl : ClusterList} {id pid : String}
    {now : Int} (hne : pid ≠ id) (hlock : lockedOn cl.clusters id) :
    lockedOn ((cl.ClusterProcessed pid now).clusters) id := by
  unfold ClusterList.ClusterProcessed
  rcases hl : lookupEntry cl.clusters pid with _ | info
  · exact hlock
  · dsimp only
    refine lockedOn_of_filterKey_eq (filterKey_map_other ?_ ?_) hlock
    · intro p
      by_cases hp : p.1 = pid <;> simp [hp]
    · intro p _ hk
      have hnp : p.1 ≠ pid := by
        rw [hk]; exact fun h => hne h.symm
      rw [if_neg hnp]

lemma lockedOn_applyOp {cl : ClusterList} {id : String} {op : RegistryOp}
    (hop : ∀ t, op ≠ .clusterProcessed id t)
    (hlock : lockedOn cl.clusters id) :
    lockedOn ((applyOp cl op).clusters) id := by
  cases op with
  | ingest cs => exact lockedOn_UpdateAvailable hlock cs
  | selectNext => exact lockedOn_SelectNext hlock
  | clusterProcessed pid now =>
    have hne : pid ≠ id := by
      intro h
      exact hop now (by rw [h])
    exact lockedOn_ClusterProcessed hne hlock

/-! ## Lemmas: key consistency (map keys are the cluster ids) -/

lemma keyConsistent_ingestOne {f : String → Bool}
    {cs : List (String × clusterInfo)} {ids : List String} {c : Cluster}
    (kc : keyConsistent cs) : keyConsistent ((ingestOne f (cs, ids) c).1) := by
  by_cases h1 : c.lifecycleStatus = statusDecommissioned
  · rw [ingestOne_skip (Or.inl h1)]; exact kc
  · cases hf : f c.infrastructureAccount with
    | false => rw [ingestOne_skip (Or.inr hf)]; exact kc
    | true =>
      rcases hl : lookupEntry cs c.id with _ | info
      · rw [ingestOne_eq_create h1 hf hl]
        intro p hp
        rcases List.mem_append.mp hp with hp2 | hp2
        · exact kc p hp2
        · rcases List.mem_singleton.mp hp2 with rfl
          rfl
      · by_cases hproc : info.processing = true
        · rw [ingestOne_eq_keep h1 hf hl hproc]; exact kc
        · have hproc2 : info.processing = false := by
            revert hproc; cases info.processing <;> simp
          rw [ingestOne_eq_refresh h1 hf hl hproc2]
          intro p hp
          obtain ⟨r, hr, rfl⟩ := List.mem_map.mp hp
          by_cases hq : r.1 = c.id
          · simp [hq]
          · rw [if_neg hq]
            exact kc r hr

lemma keyConsistent_fold {f : String → Bool} (available : List Cluster) :
    ∀ cs ids, keyConsistent cs →
      keyConsistent ((available.foldl (ingestOne f) (cs, ids)).1) := by
  induction available with
  | nil => intro cs ids kc; exact kc
  | cons c rest ih =>
    intro cs ids kc
    rw [List.foldl_cons]
    exact ih (ingestOne f (cs, ids) c).1 (ingestOne f (cs, ids) c).2
      (keyConsistent_ingestOne kc)

lemma keyConsistent_filter {cs : List (String × clusterInfo)}
    {keep : String × clusterInfo → Bool} (kc : keyConsistent cs) :
    keyConsistent (cs.filter keep) :=
  fun p hp => kc p (List.mem_filter.mp hp).1

lemma keyConsistent_applyOp {cl : ClusterList} {op : RegistryOp}
    (kc : keyConsistent cl.clusters) :
    keyConsistent ((applyOp cl op).clusters) := by
  cases op with
  | ingest cs =>
    show keyConsistent ((cl.UpdateAvailable cs).clusters)
    rw [UpdateAvailable_def]
    exact keyConsistent_filter (keyConsistent_fold cs cl.clusters [] kc)
  | selectNext =>
    show keyConsistent (cl.SelectNext.2.clusters)
    unfold ClusterList.SelectNext
    rcases hsl : selectLoop cl.clusters none with _ | ⟨q, qpr⟩
    · exact kc
    · intro p hp
      obtain ⟨r, hr, rfl⟩ := List.mem_map.mp hp
      by_cases hq : r.1 = q.1
      · rw [if_pos hq]
        exact kc r hr
      · rw [if_neg hq]
        exact kc r hr
  | clusterProcessed pid now =>
    show keyConsistent ((cl.ClusterProcessed pid now).clusters)
    unfold ClusterList.ClusterProcessed
    rcases hl : lookupEntry cl.clusters pid with _ | info
    · exact kc
    · intro p hp
      obtain ⟨r, hr, rfl⟩ := List.mem_map.mp hp
      by_cases hq : r.1 = pid
      · rw [if_pos hq]
        exact kc r hr
      · rw [if_neg hq]
        exact kc r hr

/-! ## Lemmas: trace states -/

lemma stateAt_zero (f : String → Bool) (ops : List RegistryOp) :
    stateAt f ops 0 = emptyClusterList f := rfl

lemma stateAt_succ {f : String → Bool} {ops : List RegistryOp} {n : Nat}
    {op : RegistryOp} (h : ops[n]? = some op) :
    stateAt f ops (n + 1) = applyOp (stateAt f ops n) op := by
  unfold stateAt
  rw [List.take_succ, h]
  simp [List.foldl_append]

lemma stateAt_succ_none {f : String → Bool} {ops : List RegistryOp} {n : Nat}
    (h : ops[n]? = none) : stateAt f ops (n + 1) = stateAt f ops n := by
  unfold stateAt
  rw [List.take_succ, h]
  simp

lemma keyConsistent_stateAt (f : String → Bool) (ops : List RegistryOp) :
    ∀ n, keyConsistent ((stateAt f ops n).clusters) := by
  intro n
  induction n with
  | zero =>
    intro p hp
    exact absurd hp (by simp [stateAt, emptyClusterList])
  | succ n ih =>
    rcases hop : ops[n]? with _ | op
    · rw [stateAt_succ_none hop]; exact ih
    · rw [stateAt_succ hop]; exact keyConsistent_applyOp ih

/-! ## Lemmas: single ownership -/

lemma lockedOn_established {cl : ClusterList} {id : String}
    (kc : keyConsistent cl.clusters)
    (h : opOut cl .selectNext = some id) :
    lockedOn ((applyOp cl .selectNext).clusters) id := by
  simp only [opOut, applyOp] at *
  unfold ClusterList.SelectNext at *
  rcases hsl : selectLoop cl.clusters none with _ | ⟨q, qpr⟩
  · rw [hsl] at h
    exact nomatch h
  · rw [hsl] at h
    simp only [Option.some.injEq] at h
    obtain ⟨-, -, hmem, -⟩ := selectLoop_some_sound hsl
    have hkey : q.1 = id := by rw [← kc q hmem, h]
    dsimp only
    constructor
    · have hin : (q.1, { q.2 with processing := true }) ∈
          filterKey (cl.clusters.map (fun p =>
            if p.1 = q.1 then (p.1, { p.2 with processing := true }) else p)) id := by
        apply mem_filterKey.mpr
        refine ⟨List.mem_map.mpr ⟨q, hmem, by rw [if_pos rfl]⟩, hkey⟩
      exact List.ne_nil_of_mem hin
    · intro p hp hk
      obtain ⟨r, hr, rfl⟩ := List.mem_map.mp hp
      by_cases hq : r.1 = q.1
      · simp [hq]
      · rw [if_neg hq] at hk ⊢
        exact absurd (hk.trans hkey.symm) hq

lemma opOut_ne_of_locked {cl : ClusterList} {id : String} {op : RegistryOp}
    (kc : keyConsistent cl.clusters) (hlock : lockedOn cl.clusters id) :
    opOut cl op ≠ some id := by
  cases op with
  | ingest cs => exact fun h => nomatch h
  | clusterProcessed pid now => exact fun h => nomatch h
  | selectNext =>
    intro h
    simp only [opOut] at h
    unfold ClusterList.SelectNext at h
    rcases hsl : selectLoop cl.clusters none with _ | ⟨q, qpr⟩
    · rw [hsl] at h
      exact nomatch h
    · rw [hsl] at h
      simp only [Option.some.injEq] at h
      obtain ⟨hproc, -, hmem, -⟩ := selectLoop_some_sound hsl
      have hkey : q.1 = id := by rw [← kc q hmem, h]
      have := hlock.2 q hmem hkey
      rw [hproc] at this
      exact Bool.false_ne_true this

lemma lockedOn_stateAt_range {f : String → Bool} {ops : List RegistryOp}
    {id : String} {i : Nat} (hi : outAt f ops i = some id) :
    ∀ m, i < m →
      (∀ k, i < k → k < m → ∀ t, ops[k]? ≠ some (.clusterProcessed id t)) →
      lockedOn ((stateAt f ops m).clusters) id := by
  intro m
  induction m with
  | zero => intro h; exact absurd h (Nat.not_lt_zero i)
  | succ m ih =>
    intro him hcp
    by_cases hmi : i < m
    · have hlockm := ih hmi
        (fun k hk1 hk2 t => hcp k hk1 (Nat.lt_succ_of_lt hk2) t)
      rcases hop : ops[m]? with _ | op
      · rw [stateAt_succ_none hop]; exact hlockm
      · rw [stateAt_succ hop]
        refine lockedOn_applyOp ?_ hlockm
        intro t heq
        exact hcp m hmi (Nat.lt_succ_self m) t (by rw [hop, heq])
    · have hmieq : m = i :=
        Nat.le_antisymm (Nat.not_lt.mp hmi) (Nat.lt_succ_iff.mp him)
      subst hmieq
      simp only [outAt] at hi
      rcases hop : ops[m]? with _ | op
      · rw [hop] at hi
        exact nomatch hi
      · rw [hop] at hi
        rw [stateAt_succ hop]
        cases op with
        | ingest cs => exact nomatch hi
        | clusterProcessed pid now => exact nomatch hi
        | selectNext =>
          exact lockedOn_established (keyConsistent_stateAt f ops m) hi

/-- C1: for every sequence of `UpdateAvailable` (ingest), `SelectNext` and
`ClusterProcessed` calls starting from an empty registry, no cluster id is
returned by two `SelectNext` calls without an intervening
`ClusterProcessed` call for that id; moreover `SelectNext` never returns an
entry whose `processing` flag is set, and a successful `SelectNext` marks
the returned entry's `processing` flag. -/
theorem selectNext_single_ownership :
    (∀ (accountFilter : String → Bool) (ops : List RegistryOp) (i j : Nat)
        (id : String),
        i < j → outAt accountFilter ops i = some id →
        outAt accountFilter ops j = some id →
        ∃ k t, i < k ∧ k < j ∧ ops[k]? = some (.clusterProcessed id t)) ∧
    (∀ (cl : ClusterList) (q : String × clusterInfo) (qpr : Nat),
        selectLoop cl.clusters none = some (q, qpr) →
        q.2.processing = false) ∧
    (∀ (cl : ClusterList) (c : Cluster) (cl2 : ClusterList),
        cl.SelectNext = (some c, cl2) →
        ∃ k, (∃ p ∈ cl2.clusters,
                p.1 = k ∧ p.2.cluster = c ∧ p.2.processing = true) ∧
          ∀ p ∈ cl2.clusters, p.1 = k → p.2.processing = true) := by
  refine ⟨?_, ?_, ?_⟩
  · intro f ops i j id hij hi hj
    by_contra hno
    push_neg at hno
    have hlock : lockedOn ((stateAt f ops j).clusters) id :=
      lockedOn_stateAt_range hi j hij
        (fun k hk1 hk2 t => hno k t hk1 hk2)
    simp only [outAt] at hj
    rcases hop : ops[j]? with _ | op
    · rw [hop] at hj
      exact nomatch hj
    · rw [hop] at hj
      exact opOut_ne_of_locked (keyConsistent_stateAt f ops j) hlock hj
  · intro cl q qpr h
    exact (selectLoop_some_sound h).1
  · intro cl c cl2 h
    unfold ClusterList.SelectNext at h
    rcases hsl : selectLoop cl.clusters none with _ | ⟨q, qpr⟩
    · rw [hsl] at h
      exact nomatch congrArg Prod.fst h
    · rw [hsl] at h
      have hc : q.2.cluster = c := by
        have := congrArg Prod.fst h
        simpa using this
      have hcl2 : cl2.clusters = cl.clusters.map (fun p =>
          if p.1 = q.1 then (p.1, { p.2 with processing := true }) else p) := by
        have h2 := congrArg Prod.snd h
        dsimp only at h2
        exact (congrArg ClusterList.clusters h2).symm
      obtain ⟨-, -, hmem, -⟩ := selectLoop_some_sound hsl
      refine ⟨q.1, ⟨(q.1, { q.2 with processing := true }), ?_, rfl, hc, rfl⟩, ?_⟩
      · rw [hcl2]
        exact List.mem_map.mpr ⟨q, hmem, by rw [if_pos rfl]⟩
      · intro p hp hk
        rw [hcl2] at hp
        obtain ⟨r, hr, rfl⟩ := List.mem_map.mp hp
        by_cases hq : r.1 = q.1
        · simp [hq]
        · rw [if_neg hq] at hk ⊢
          exact absurd hk hq

/-- Witness for C1 on a concrete trace: the cluster selected at call 1 is
selected again at call 3, and the theorem produces the intervening
`ClusterProcessed` call. -/
theorem selectNext_single_ownership_witness :
    (1 : Nat) < 3 ∧ outAt (fun _ => true) opsW 1 = some "a" ∧
      outAt (fun _ => true) opsW 3 = some "a" ∧
      ∃ k t, 1 < k ∧ k < 3 ∧ opsW[k]? = some (.clusterProcessed "a" t) := by
  have h1 : outAt (fun _ => true) opsW 1 = some "a" := by decide
  have h2 : outAt (fun _ => true) opsW 3 = some "a" := by decide
  exact ⟨by decide, h1, h2,
    selectNext_single_ownership.1 (fun _ => true) opsW 1 3 "a" (by decide) h1 h2⟩

/-! ## Lemmas: uniquely best entries -/

lemma selectNext_unique_best {cl : ClusterList} {q0 : String × clusterInfo}
    (hmem : q0 ∈ cl.clusters) (hproc : q0.2.processing = false)
    (hbest : ∀ p ∈ cl.clusters, p.2.processing = false → p ≠ q0 →
      beats q0.2 p.2) :
    cl.SelectNext.1 = some q0.2.cluster ∧
      cl.SelectNext.2.clusters = cl.clusters.map (fun p =>
        if p.1 = q0.1 then (p.1, { p.2 with processing := true }) else p) := by
  unfold ClusterList.SelectNext
  rcases hsl : selectLoop cl.clusters none with _ | ⟨q, qpr⟩
  · have hall := selectLoop_none_sound hsl
    rw [hall q0 hmem] at hproc
    exact nomatch hproc
  · obtain ⟨hq1, -, hq3, hq4⟩ := selectLoop_some_sound hsl
    have hqq0 : q = q0 := by
      by_contra hne
      exact (hq4 q0 hmem hproc) (hbest q hq3 hq1 hne)
    subst hqq0
    exact ⟨rfl, rfl⟩

/-- C2: `SelectNext` never passes over an eligible entry of a strictly
higher priority tier; in particular with a normal cluster A, a
decommission-requested cluster B and a mid-update cluster C all eligible,
three successive `SelectNext` calls return C, then B, then A, for every
insertion order and all `lastProcessed` values. -/
theorem selectNext_priority_tiers :
    (∀ (cl : ClusterList) (c : Cluster) (cl2 : ClusterList),
        cl.SelectNext = (some c, cl2) →
        ∀ p ∈ cl.clusters, p.2.processing = false →
          updatePriority p.2.cluster ≤ updatePriority c) ∧
    (∀ (cl : ClusterList) (a b c : Cluster) (ta tb tc : Int),
        ¬(a.status.nextVersion ≠ "" ∧
            a.status.nextVersion ≠ a.status.currentVersion) →
        a.lifecycleStatus ≠ statusDecommissionRequested →
        b.lifecycleStatus = statusDecommissionRequested →
        ¬(b.status.nextVersion ≠ "" ∧
            b.status.nextVersion ≠ b.status.currentVersion) →
        (c.status.nextVersion ≠ "" ∧
          c.status.nextVersion ≠ c.status.currentVersion) →
        a.id ≠ b.id → a.id ≠ c.id → b.id ≠ c.id →
        cl.clusters.Perm
          [entryOf ta false a, entryOf tb false b, entryOf tc false c] →
        cl.SelectNext.1 = some c ∧
          cl.SelectNext.2.SelectNext.1 = some b ∧
          cl.SelectNext.2.SelectNext.2.SelectNext.1 = some a) := by
  constructor
  · intro cl c cl2 h p hp hproc
    unfold ClusterList.SelectNext at h
    rcases hsl : selectLoop cl.clusters none with _ | ⟨q, qpr⟩
    · rw [hsl] at h
      exact nomatch congrArg Prod.fst h
    · rw [hsl] at h
      have hc : q.2.cluster = c := by
        have h1 := congrArg Prod.fst h
        simpa using h1
      obtain ⟨-, -, -, hq4⟩ := selectLoop_some_sound hsl
      have hnb := hq4 p hp hproc
      unfold beats at hnb
      rw [hc] at hnb
      omega
  · intro cl a b c ta tb tc hA1 hA2 hB1 hB2 hC hab hac hbc hperm
    have hpa : updatePriority a = 0 := by
      simp [updatePriority, updatePriorityNormal, hA1, hA2]
    have hpb : updatePriority b = 1 := by
      simp [updatePriority, updatePriorityDecommissionRequested, hB1, hB2]
    have hpc : updatePriority c = 2 := by
      simp [updatePriority, updatePriorityAlreadyUpdating, hC]
    -- first call: C is the unique best entry
    have hstep1 := @selectNext_unique_best cl (entryOf tc false c)
      (hperm.mem_iff.mpr (by simp)) rfl ?hbest1
    case hbest1 =>
      intro p hp hproc2 hne
      have hp3 := hperm.subset hp
      simp only [List.mem_cons, List.not_mem_nil, or_false] at hp3
      rcases hp3 with rfl | rfl | rfl
      · exact Or.inl (by
          show updatePriority c > updatePriority a
          rw [hpa, hpc]; omega)
      · exact Or.inl (by
          show updatePriority c > updatePriority b
          rw [hpb, hpc]; omega)
      · exact absurd rfl hne
    obtain ⟨hs1, hs1c⟩ := hstep1
    -- state after the first call
    have hperm2 : cl.SelectNext.2.clusters.Perm
        [entryOf ta false a, entryOf tb false b,
          (c.id, { lastProcessed := tc, processing := true, cluster := c })] := by
      rw [hs1c]
      have hmap := hperm.map (fun p =>
        if p.1 = (entryOf tc false c).1 then
          (p.1, { p.2 with processing := true }) else p)
      have hcomp : List.map (fun p =>
          if p.1 = (entryOf tc false c).1 then
            (p.1, { p.2 with processing := true }) else p)
          [entryOf ta false a, entryOf tb false b, entryOf tc false c] =
          [entryOf ta false a, entryOf tb false b,
            (c.id, { lastProcessed := tc, processing := true, cluster := c })] := by
        simp [entryOf, hac, hbc]
      rw [hcomp] at hmap
      exact hmap
    -- second call: B is the unique best entry
    have hstep2 := @selectNext_unique_best cl.SelectNext.2 (entryOf tb false b)
      (hperm2.mem_iff.mpr (by simp)) rfl ?hbest2
    case hbest2 =>
      intro p hp hproc2 hne
      have hp3 := hperm2.subset hp
      simp only [List.mem_cons, List.not_mem_nil, or_false] at hp3
      rcases hp3 with rfl | rfl | rfl
      · exact Or.inl (by
          show updatePriority b > updatePriority a
          rw [hpa, hpb]; omega)
      · exact absurd rfl hne
      · exact nomatch hproc2
    obtain ⟨hs2, hs2c⟩ := hstep2
    -- state after the second call
    have hperm3 : cl.SelectNext.2.SelectNext.2.clusters.Perm
        [entryOf ta false a,
          (b.id, { lastProcessed := tb, processing := true, cluster := b }),
          (c.id, { lastProcessed := tc, processing := true, cluster := c })] := by
      rw [hs2c]
      have hmap := hperm2.map (fun p =>
        if p.1 = (entryOf tb false b).1 then
          (p.1, { p.2 with processing := true }) else p)
      have hcomp : List.map (fun p =>
          if p.1 = (entryOf tb false b).1 then
            (p.1, { p.2 with processing := true }) else p)
          [entryOf ta false a, entryOf tb false b,
            (c.id, { lastProcessed := tc, processing := true, cluster := c })] =
          [entryOf ta false a,
            (b.id, { lastProcessed := tb, processing := true, cluster := b }),
            (c.id, { lastProcessed := tc, processing := true, cluster := c })] := by
        have hcb : c.id ≠ b.id := fun h => hbc h.symm
        simp [entryOf, hab, hcb]
      rw [hcomp] at hmap
      exact hmap
    -- third call: A is the unique remaining eligible entry
    have hstep3 := @selectNext_unique_best cl.SelectNext.2.SelectNext.2
      (entryOf ta false a) (hperm3.mem_iff.mpr (by simp)) rfl ?hbest3
    case hbest3 =>
      intro p hp hproc2 hne
      have hp3 := hperm3.subset hp
      simp only [List.mem_cons, List.not_mem_nil, or_false] at hp3
      rcases hp3 with rfl | rfl | rfl
      · exact absurd rfl hne
      · exact nomatch hproc2
      · exact nomatch hproc2
    exact ⟨hs1, hs2, hstep3.1⟩

/-- Witness for C2: on the concrete registry holding A, B, C the three
calls return C, then B, then A; and the returned priority dominates the
eligible entries. -/
theorem selectNext_priority_tiers_witness :
    (clABCw.SelectNext.1 = some clusterC ∧
      clABCw.SelectNext.2.SelectNext.1 = some clusterB ∧
      clABCw.SelectNext.2.SelectNext.2.SelectNext.1 = some clusterA) ∧
    updatePriority clusterA ≤ updatePriority clusterC := by
  have hsc := selectNext_priority_tiers.2 clABCw clusterA clusterB clusterC
    1 9 5 (by decide) (by decide) (by decide) (by decide) (by decide)
    (by decide) (by decide) (by decide) (List.Perm.refl _)
  have hpair : clABCw.SelectNext = (some clusterC, clABCw.SelectNext.2) := by
    rw [← hsc.1]
  have hgen := selectNext_priority_tiers.1 clABCw clusterC clABCw.SelectNext.2
    hpair (entryOf 1 false clusterA) (by simp [clABCw]) rfl
  exact ⟨hsc, hgen⟩

/-- C3: among eligible entries of the returned entry's priority tier, none
has a strictly older `lastProcessed` than the returned entry; in
particular, of two eligible normal clusters with `lastProcessed` values
T1 < T2, `SelectNext` returns the one with T1. -/
theorem selectNext_fairness :
    (∀ (cl : ClusterList) (c : Cluster) (cl2 : ClusterList),
        cl.SelectNext = (some c, cl2) →
        ∃ q qpr, selectLoop cl.clusters none = some (q, qpr) ∧
          q.2.cluster = c ∧
          ∀ p ∈ cl.clusters, p.2.processing = false →
            updatePriority p.2.cluster = updatePriority c →
            ¬(p.2.lastProcessed < q.2.lastProcessed)) ∧
    (∀ (cl : ClusterList) (x y : Cluster) (t1 t2 : Int),
        ¬(x.status.nextVersion ≠ "" ∧
            x.status.nextVersion ≠ x.status.currentVersion) →
        x.lifecycleStatus ≠ statusDecommissionRequested →
        ¬(y.status.nextVersion ≠ "" ∧
            y.status.nextVersion ≠ y.status.currentVersion) →
        y.lifecycleStatus ≠ statusDecommissionRequested →
        t1 < t2 →
        cl.clusters.Perm [entryOf t1 false x, entryOf t2 false y] →
        cl.SelectNext.1 = some x) := by
  constructor
  · intro cl c cl2 h
    unfold ClusterList.SelectNext at h
    rcases hsl : selectLoop cl.clusters none with _ | ⟨q, qpr⟩
    · rw [hsl] at h
      exact nomatch congrArg Prod.fst h
    · rw [hsl] at h
      have hc : q.2.cluster = c := by
        have h1 := congrArg Prod.fst h
        simpa using h1
      obtain ⟨-, -, -, hq4⟩ := selectLoop_some_sound hsl
      refine ⟨q, qpr, rfl, hc, ?_⟩
      intro p hp hproc hpr
      have hnb := hq4 p hp hproc
      unfold beats at hnb
      rw [hc] at hnb
      omega
  · intro cl x y t1 t2 hX1 hX2 hY1 hY2 ht hperm
    have hpx : updatePriority x = 0 := by
      simp [updatePriority, updatePriorityNormal, hX1, hX2]
    have hpy : updatePriority y = 0 := by
      simp [updatePriority, updatePriorityNormal, hY1, hY2]
    have hstep := @selectNext_unique_best cl (entryOf t1 false x)
      (hperm.mem_iff.mpr (by simp)) rfl ?hbest
    case hbest =>
      intro p hp hproc2 hne
      have hp3 := hperm.subset hp
      simp only [List.mem_cons, List.not_mem_nil, or_false] at hp3
      rcases hp3 with rfl | rfl
      · exact absurd rfl hne
      · refine Or.inr ⟨?_, ht⟩
        show updatePriority x = updatePriority y
        rw [hpx, hpy]
    exact hstep.1

/-- Witness for C3: with `lastProcessed` values 1 < 2 and reversed
insertion order, the entry with value 1 is returned, and the theorem's
tie-break conclusion holds on the same registry. -/
theorem selectNext_fairness_witness :
    clXYw.SelectNext.1 = some clusterA ∧
      ∃ q qpr, selectLoop clXYw.clusters none = some (q, qpr) ∧
        q.2.cluster = clusterA ∧
        ∀ p ∈ clXYw.clusters, p.2.processing = false →
          updatePriority p.2.cluster = updatePriority clusterA →
          ¬(p.2.lastProcessed < q.2.lastProcessed) := by
  have hsc := selectNext_fairness.2 clXYw clusterA clusterA2 1 2
    (by decide) (by decide) (by decide) (by decide) (by decide) (by decide)
  have hpair : clXYw.SelectNext = (some clusterA, clXYw.SelectNext.2) := by
    rw [← hsc]
  exact ⟨hsc, selectNext_fairness.1 clXYw clusterA clXYw.SelectNext.2 hpair⟩

/-! ## Lemmas: lookups after keyed map updates -/

lemma filterKey_eq_nil_of_no_key {cs : List (String × clusterInfo)}
    {cid : String} (h : ∀ p ∈ cs, p.1 ≠ cid) : filterKey cs cid = [] := by
  rw [List.eq_nil_iff_forall_not_mem]
  intro p hp
  obtain ⟨h1, h2⟩ := mem_filterKey.mp hp
  exact h p h1 h2

lemma filterKey_nodup_lookup {cs : List (String × clusterInfo)} {cid : String}
    {info : clusterInfo} (hnodup : (cs.map Prod.fst).Nodup)
    (hl : lookupEntry cs cid = some info) :
    filterKey cs cid = [(cid, info)] := by
  induction cs with
  | nil => exact nomatch hl
  | cons p rest ih =>
    simp only [List.map_cons, List.nodup_cons] at hnodup
    obtain ⟨hhead, htail⟩ := hnodup
    by_cases h : p.1 = cid
    · have hinfo : p.2 = info := by
        simp only [lookupEntry, h, if_pos] at hl
        exact Option.some.inj (by simpa using hl)
      have hrest : filterKey rest cid = [] := by
        apply filterKey_eq_nil_of_no_key
        intro r hr hrk
        exact hhead (by
          rw [← h] at hrk
          exact List.mem_map.mpr ⟨r, hr, hrk.symm ▸ rfl⟩)
      rw [filterKey_cons, if_pos h, hrest]
      have hp : p = (cid, info) := by
        obtain ⟨p1, p2⟩ := p
        simp only at h hinfo
        rw [h, hinfo]
      rw [hp]
    · simp only [lookupEntry, h, if_neg, if_false] at hl
      rw [filterKey_cons, if_neg h]
      exact ih htail (by simpa using hl)

lemma nodupKeys_map {g : String × clusterInfo → String × clusterInfo}
    {cs : List (String × clusterInfo)} (hg : ∀ p, (g p).1 = p.1)
    (h : (cs.map Prod.fst).Nodup) : ((cs.map g).map Prod.fst).Nodup := by
  rw [List.map_map]
  have heq : cs.map (Prod.fst ∘ g) = cs.map Prod.fst :=
    List.map_congr_left (fun p _ => hg p)
  rw [heq]
  exact h

lemma clusterProcessed_lookup_self {cl : ClusterList} {cid : String}
    {now : Int} {info : clusterInfo}
    (hl : lookupEntry cl.clusters cid = some info) :
    lookupEntry ((cl.ClusterProcessed cid now).clusters) cid =
      some { info with processing := false, lastProcessed := now } := by
  unfold ClusterList.ClusterProcessed
  rw [hl]
  dsimp only
  have hg : ∀ p : String × clusterInfo,
      ((if p.1 = cid then
        (p.1, { p.2 with processing := false, lastProcessed := now })
      else p)).1 = p.1 := by
    intro p
    by_cases hp : p.1 = cid <;> simp [hp]
  rw [lookupEntry_filterKey, filterKey_map_keep hg, List.head?_map]
  rcases hfk : filterKey cl.clusters cid with _ | ⟨p0, t⟩
  · rw [lookupEntry_filterKey, hfk] at hl
    exact nomatch hl
  · rw [lookupEntry_filterKey, hfk] at hl
    have hinfo : p0.2 = info := Option.some.inj (by simpa using hl)
    have hkey : p0.1 = cid := by
      have hmem : p0 ∈ filterKey cl.clusters cid := by
        rw [hfk]; exact List.mem_cons_self p0 t
      exact (mem_filterKey.mp hmem).2
    simp [hkey, hinfo]

lemma clusterProcessed_lookup_other {cl : ClusterList} {cid k : String}
    {now : Int} (hne : k ≠ cid) :
    lookupEntry ((cl.ClusterProcessed cid now).clusters) k =
      lookupEntry cl.clusters k := by
  unfold ClusterList.ClusterProcessed
  rcases hl : lookupEntry cl.clusters cid with _ | info
  · rfl
  · dsimp only
    rw [lookupEntry_filterKey, lookupEntry_filterKey]
    have hfk : filterKey (cl.clusters.map (fun p =>
        if p.1 = cid then
          (p.1, { p.2 with processing := false, lastProcessed := now })
        else p)) k = filterKey cl.clusters k := by
      apply filterKey_map_other
      · intro p
        by_cases hp : p.1 = cid <;> simp [hp]
      · intro p _ hpk
        have : p.1 ≠ cid := by rw [hpk]; exact hne
        rw [if_neg this]
    rw [hfk]

lemma clusterProcessed_missing {cl : ClusterList} {cid : String} {now : Int}
    (hl : lookupEntry cl.clusters cid = none) :
    cl.ClusterProcessed cid now = cl := by
  unfold ClusterList.ClusterProcessed
  rw [hl]

/-- C6: `ClusterProcessed` never fails: when the id is tracked it clears
that entry's `processing` flag and stamps its `lastProcessed` with the
current time, leaving every other id's entry unchanged; when the id is not
tracked the registry is left entirely unchanged and no error is
signalled. -/
theorem clusterProcessed_spec :
    (∀ (cl : ClusterList) (cid : String) (now : Int) (info : clusterInfo),
        lookupEntry cl.clusters cid = some info →
        lookupEntry ((cl.ClusterProcessed cid now).clusters) cid =
            some { info with processing := false, lastProcessed := now } ∧
          ∀ k, k ≠ cid →
            lookupEntry ((cl.ClusterProcessed cid now).clusters) k =
              lookupEntry cl.clusters k) ∧
    (∀ (cl : ClusterList) (cid : String) (now : Int),
        lookupEntry cl.clusters cid = none →
        cl.ClusterProcessed cid now = cl) := by
  constructor
  · intro cl cid now info hl
    exact ⟨clusterProcessed_lookup_self hl,
      fun k hk => clusterProcessed_lookup_other hk⟩
  · intro cl cid now hl
    exact clusterProcessed_missing hl

/-- Witness for C6 on a concrete registry: reporting a tracked id updates
exactly that entry; reporting an unknown id is a no-op. -/
theorem clusterProcessed_spec_witness :
    lookupEntry ((clABCw.ClusterProcessed "a" 7).clusters) "a" =
        some { lastProcessed := 7, processing := false, cluster := clusterA } ∧
      lookupEntry ((clABCw.ClusterProcessed "a" 7).clusters) "b" =
        lookupEntry clABCw.clusters "b" ∧
      clABCw.ClusterProcessed "zz" 7 = clABCw := by
  have h1 : lookupEntry clABCw.clusters "a" =
      some { lastProcessed := 1, processing := false, cluster := clusterA } := by
    decide
  have h2 : lookupEntry clABCw.clusters "zz" = none := by decide
  obtain ⟨ha, hb⟩ := clusterProcessed_spec.1 clABCw "a" 7
    { lastProcessed := 1, processing := false, cluster := clusterA } h1
  exact ⟨ha, hb "b" (by decide), clusterProcessed_spec.2 clABCw "zz" 7 h2⟩

/-! ## Lemmas: `UpdateAvailable` lookups -/

lemma lookup_of_filterKey_singleton {cs : List (String × clusterInfo)}
    {cid : String} {info : clusterInfo}
    (h : filterKey cs cid = [(cid, info)]) : lookupEntry cs cid = some info := by
  rw [lookupEntry_filterKey, h]
  rfl

lemma updateAvailable_lookup_none {cl : ClusterList} {available : List Cluster}
    {cid : String}
    (hdec : ∀ c ∈ available, c.id = cid →
      c.lifecycleStatus = statusDecommissioned ∨
        cl.accountFilter c.infrastructureAccount = false)
    (hl : lookupEntry cl.clusters cid = none) :
    lookupEntry ((cl.UpdateAvailable available).clusters) cid = none := by
  rw [UpdateAvailable_def]
  dsimp only
  obtain ⟨hfk, -⟩ := fold_untouched available cl.clusters [] hdec (by simp)
  rw [lookupEntry_none_iff] at hl ⊢
  apply filterKey_eq_nil_of_no_key
  intro p hp hpk
  have hpX : p ∈ (available.foldl (ingestOne cl.accountFilter)
      (cl.clusters, [])).1 := (List.mem_filter.mp hp).1
  have hmem : p ∈ filterKey
      ((available.foldl (ingestOne cl.accountFilter) (cl.clusters, [])).1)
      cid := mem_filterKey.mpr ⟨hpX, hpk⟩
  rw [hfk, hl] at hmem
  exact absurd hmem (List.not_mem_nil p)

lemma updateAvailable_lookup_dropped {cl : ClusterList}
    {available : List Cluster} {cid : String} {info : clusterInfo}
    (hnodup : (cl.clusters.map Prod.fst).Nodup)
    (hdec : ∀ c ∈ available, c.id = cid →
      c.lifecycleStatus = statusDecommissioned ∨
        cl.accountFilter c.infrastructureAccount = false)
    (hl : lookupEntry cl.clusters cid = some info)
    (hproc : info.processing = false) :
    lookupEntry ((cl.UpdateAvailable available).clusters) cid = none := by
  rw [UpdateAvailable_def]
  dsimp only
  obtain ⟨hfk, hids⟩ := fold_untouched available cl.clusters [] hdec (by simp)
  have hsing := filterKey_nodup_lookup hnodup hl
  rw [lookupEntry_none_iff]
  apply filterKey_filter_drop
  intro p hp hpk
  have hpfk : p ∈ filterKey
      ((available.foldl (ingestOne cl.accountFilter) (cl.clusters, [])).1)
      cid := mem_filterKey.mpr ⟨hp, hpk⟩
  rw [hfk, hsing] at hpfk
  rcases List.mem_singleton.mp hpfk with rfl
  simp only [hproc, Bool.false_or]
  rw [decide_eq_false_iff_not]
  exact hids

lemma updateAvailable_lookup_kept {cl : ClusterList}
    {available : List Cluster} {cid : String} {info : clusterInfo}
    (hnodup : (cl.clusters.map Prod.fst).Nodup)
    (hdec : ∀ c ∈ available, c.id = cid →
      c.lifecycleStatus = statusDecommissioned ∨
        cl.accountFilter c.infrastructureAccount = false)
    (hl : lookupEntry cl.clusters cid = some info)
    (hproc : info.processing = true) :
    lookupEntry ((cl.UpdateAvailable available).clusters) cid = some info := by
  rw [UpdateAvailable_def]
  dsimp only
  obtain ⟨hfk, -⟩ := fold_untouched available cl.clusters [] hdec (by simp)
  have hsing := filterKey_nodup_lookup hnodup hl
  apply lookup_of_filterKey_singleton
  rw [filterKey_filter_keep, hfk, hsing]
  intro p hp hpk
  have hpfk : p ∈ filterKey
      ((available.foldl (ingestOne cl.accountFilter) (cl.clusters, [])).1)
      cid := mem_filterKey.mpr ⟨hp, hpk⟩
  rw [hfk, hsing] at hpfk
  rcases List.mem_singleton.mp hpfk with rfl
  simp [hproc]

lemma updateAvailable_lookup_locked {cl : ClusterList}
    {available : List Cluster} {cid : String} {info : clusterInfo}
    (hnodup : (cl.clusters.map Prod.fst).Nodup)
    (hl : lookupEntry cl.clusters cid = some info)
    (hproc : info.processing = true) :
    lookupEntry ((cl.UpdateAvailable available).clusters) cid = some info := by
  have hsing := filterKey_nodup_lookup hnodup hl
  have hlock : lockedOn cl.clusters cid := by
    constructor
    · rw [hsing]
      exact List.cons_ne_nil _ _
    · intro p hp hpk
      have hpfk : p ∈ filterKey cl.clusters cid := mem_filterKey.mpr ⟨hp, hpk⟩
      rw [hsing] at hpfk
      rcases List.mem_singleton.mp hpfk with rfl
      exact hproc
  apply lookup_of_filterKey_singleton
  rw [UpdateAvailable_locked hlock available, hsing]

lemma nodup_clusterProcessed {cl : ClusterList} {cid : String} {now : Int}
    (hnodup : (cl.clusters.map Prod.fst).Nodup) :
    (((cl.ClusterProcessed cid now).clusters).map Prod.fst).Nodup := by
  unfold ClusterList.ClusterProcessed
  rcases hl : lookupEntry cl.clusters cid with _ | info
  · exact hnodup
  · dsimp only
    apply nodupKeys_map ?_ hnodup
    intro p
    by_cases hp : p.1 = cid <;> simp [hp]

/-- C4 counterexample: `clusterADecom` is decommissioned and carries the
tracked id `"a"`, whose entry is `processing`; after the ingest the entry
is still present in the registry, contradicting the claim that a
decommissioned input cluster is always absent afterwards. -/
theorem updateAvailable_decommissioned_counterexample :
    clusterADecom.lifecycleStatus = statusDecommissioned ∧
      clusterADecom.id = "a" ∧
      lookupEntry clPw.clusters "a" ≠ none ∧
      lookupEntry ((clPw.UpdateAvailable [clusterADecom]).clusters) "a" =
        some { lastProcessed := 3, processing := true, cluster := clusterA } ∧
      lookupEntry ((clPw.UpdateAvailable [clusterADecom]).clusters) "a" ≠
        none := by
  decide

/-- C4 (amended): after `UpdateAvailable`, an id supplied only with
`LifecycleStatus = Decommissioned` is never newly tracked (absent before
implies absent after), and a previously tracked non-processing entry under
that id is removed; but a previously tracked entry with
`processing = true` is retained unchanged — the in-flight retention rule
overrides decommission filtering. -/
theorem updateAvailable_decommissioned_filtered
    (cl : ClusterList) (available : List Cluster) (cid : String)
    (hnodup : (cl.clusters.map Prod.fst).Nodup)
    (hdec : ∀ c ∈ available, c.id = cid →
      c.lifecycleStatus = statusDecommissioned) :
    (lookupEntry cl.clusters cid = none →
      lookupEntry ((cl.UpdateAvailable available).clusters) cid = none) ∧
    (∀ info, lookupEntry cl.clusters cid = some info →
      info.processing = false →
      lookupEntry ((cl.UpdateAvailable available).clusters) cid = none) ∧
    (∀ info, lookupEntry cl.clusters cid = some info →
      info.processing = true →
      lookupEntry ((cl.UpdateAvailable available).clusters) cid = some info) := by
  have hdec2 : ∀ c ∈ available, c.id = cid →
      c.lifecycleStatus = statusDecommissioned ∨
        cl.accountFilter c.infrastructureAccount = false :=
    fun c hc hcid => Or.inl (hdec c hc hcid)
  exact ⟨fun hl => updateAvailable_lookup_none hdec2 hl,
    fun info hl hproc => updateAvailable_lookup_dropped hnodup hdec2 hl hproc,
    fun info hl hproc => updateAvailable_lookup_kept hnodup hdec2 hl hproc⟩

/-- Witness for the amended C4: a non-processing tracked entry is removed
by an ingest carrying only its decommissioned record, while a processing
one is retained. -/
theorem updateAvailable_decommissioned_filtered_witness :
    (clPw.clusters.map Prod.fst).Nodup ∧
      (∀ c ∈ [clusterADecom], c.id = "a" →
        c.lifecycleStatus = statusDecommissioned) ∧
      lookupEntry ((clNPw.UpdateAvailable [clusterADecom]).clusters) "a" =
        none ∧
      lookupEntry ((clPw.UpdateAvailable [clusterADecom]).clusters) "a" =
        some { lastProcessed := 3, processing := true, cluster := clusterA } := by
  refine ⟨by decide, by decide, ?_, ?_⟩
  · exact (updateAvailable_decommissioned_filtered clNPw [clusterADecom] "a"
      (by decide) (by decide)).2.1
      { lastProcessed := 3, processing := false, cluster := clusterA }
      (by decide) (by decide)
  · exact (updateAvailable_decommissioned_filtered clPw [clusterADecom] "a"
      (by decide) (by decide)).2.2
      { lastProcessed := 3, processing := true, cluster := clusterA }
      (by decide) (by decide)

/-- C5: an entry with `processing = true` survives any ingest with its
whole record (in particular its `cluster` field) unchanged, whether or not
its id occurs in the input; an entry whose id is absent from the input is
removed exactly when its `processing` flag is false; and once
`ClusterProcessed` has released a retained entry, the next ingest still
omitting its id removes it. -/
theorem updateAvailable_retention :
    (∀ (cl : ClusterList) (available : List Cluster) (cid : String)
        (info : clusterInfo),
        (cl.clusters.map Prod.fst).Nodup →
        lookupEntry cl.clusters cid = some info → info.processing = true →
        lookupEntry ((cl.UpdateAvailable available).clusters) cid =
          some info) ∧
    (∀ (cl : ClusterList) (available : List Cluster) (cid : String)
        (info : clusterInfo),
        (cl.clusters.map Prod.fst).Nodup →
        (∀ c ∈ available, c.id ≠ cid) →
        lookupEntry cl.clusters cid = some info →
        lookupEntry ((cl.UpdateAvailable available).clusters) cid =
          if info.processing = true then some info else none) ∧
    (∀ (cl : ClusterList) (available : List Cluster) (cid : String)
        (info : clusterInfo) (now : Int),
        (cl.clusters.map Prod.fst).Nodup →
        (∀ c ∈ available, c.id ≠ cid) →
        lookupEntry cl.clusters cid = some info →
        lookupEntry
          (((cl.ClusterProcessed cid now).UpdateAvailable available).clusters)
          cid = none) := by
  refine ⟨?_, ?_, ?_⟩
  · intro cl available cid info hnodup hl hproc
    exact updateAvailable_lookup_locked hnodup hl hproc
  · intro cl available cid info hnodup habs hl
    have hdec2 : ∀ c ∈ available, c.id = cid →
        c.lifecycleStatus = statusDecommissioned ∨
          cl.accountFilter c.infrastructureAccount = false :=
      fun c hc hcid => absurd hcid (habs c hc)
    by_cases hproc : info.processing = true
    · rw [if_pos hproc]
      exact updateAvailable_lookup_kept hnodup hdec2 hl hproc
    · have hproc2 : info.processing = false := by
        revert hproc; cases info.processing <;> simp
      rw [hproc2]
      simp only [Bool.false_eq_true, if_false]
      exact updateAvailable_lookup_dropped hnodup hdec2 hl hproc2
  · intro cl available cid info now hnodup habs hl
    have hl2 := @clusterProcessed_lookup_self cl cid now info hl
    have hnodup2 := @nodup_clusterProcessed cl cid now hnodup
    have hdec2 : ∀ c ∈ available, c.id = cid →
        c.lifecycleStatus = statusDecommissioned ∨
          (cl.ClusterProcessed cid now).accountFilter
            c.infrastructureAccount = false :=
      fun c hc hcid => absurd hcid (habs c hc)
    exact updateAvailable_lookup_dropped hnodup2 hdec2 hl2 rfl

/-- Witness for C5: a processing entry survives an ingest that still lists
its cluster; with the id absent it is retained while processing and
removed after release. -/
theorem updateAvailable_retention_witness :
    lookupEntry ((clPw.UpdateAvailable [clusterA]).clusters) "a" =
        some { lastProcessed := 3, processing := true, cluster := clusterA } ∧
      lookupEntry ((clPw.UpdateAvailable [clusterB]).clusters) "a" =
        some { lastProcessed := 3, processing := true, cluster := clusterA } ∧
      lookupEntry ((clNPw.UpdateAvailable [clusterB]).clusters) "a" = none ∧
      lookupEntry
        (((clPw.ClusterProcessed "a" 9).UpdateAvailable [clusterB]).clusters)
        "a" = none := by
  refine ⟨?_, ?_, ?_, ?_⟩
  · exact updateAvailable_retention.1 clPw [clusterA] "a"
      { lastProcessed := 3, processing := true, cluster := clusterA }
      (by decide) (by decide) (by decide)
  · exact updateAvailable_retention.1 clPw [clusterB] "a"
      { lastProcessed := 3, processing := true, cluster := clusterA }
      (by decide) (by decide) (by decide)
  · have h := updateAvailable_retention.2.1 clNPw [clusterB] "a"
      { lastProcessed := 3, processing := false, cluster := clusterA }
      (by decide) (by decide) (by decide)
    simpa using h
  · exact updateAvailable_retention.2.2 clPw [clusterB] "a"
      { lastProcessed := 3, processing := true, cluster := clusterA } 9
      (by decide) (by decide) (by decide)

/-- C10: a cluster that is simultaneously mid-update
(`Status.NextVersion` non-empty and different from `Status.CurrentVersion`)
and decommission-requested is classified in the mid-update tier, the
highest, not the decommission-requested tier: the mid-update condition is
tested first, which makes the three tiers mutually exclusive. -/
theorem updatePriority_midupdate_wins (c : Cluster)
    (hmid : c.status.nextVersion ≠ "" ∧
      c.status.nextVersion ≠ c.status.currentVersion)
    (_hdec : c.lifecycleStatus = statusDecommissionRequested) :
    updatePriority c = updatePriorityAlreadyUpdating ∧
      updatePriority c ≠ updatePriorityDecommissionRequested := by
  constructor
  · unfold updatePriority
    rw [if_pos hmid]
  · unfold updatePriority
    rw [if_pos hmid]
    decide

/-- Witness for C10: `clusterD` is both mid-update and
decommission-requested and lands in the mid-update tier. -/
theorem updatePriority_midupdate_wins_witness :
    (clusterD.status.nextVersion ≠ "" ∧
        clusterD.status.nextVersion ≠ clusterD.status.currentVersion) ∧
      clusterD.lifecycleStatus = statusDecommissionRequested ∧
      updatePriority clusterD = updatePriorityAlreadyUpdating := by
  exact ⟨by decide, by decide,
    (updatePriority_midupdate_wins clusterD (by decide) (by decide)).1⟩

/-- C8: `Delete` recursively removes the snapshot's directory subtree and
never reports an error; paths outside the subtree are untouched; deleting
when the directory is already absent is an errorless no-op; and a second
`Delete` of the same snapshot leaves the filesystem unchanged. -/
theorem delete_idempotent :
    (∀ (g : Git) (fs : List String) (config : Config),
        (g.Delete fs config).2 = none ∧
          (∀ q ∈ (g.Delete fs config).1, inSubtree config.path q = false) ∧
          (∀ q ∈ fs, inSubtree config.path q = false →
            q ∈ (g.Delete fs config).1)) ∧
    (∀ (g : Git) (fs : List String) (config : Config),
        (∀ q ∈ fs, inSubtree config.path q = false) →
        g.Delete fs config = (fs, none)) ∧
    (∀ (g : Git) (fs : List String) (config : Config),
        g.Delete ((g.Delete fs config).1) config =
          ((g.Delete fs config).1, none)) := by
  have habsent : ∀ (g : Git) (fs : List String) (config : Config),
      (∀ q ∈ fs, inSubtree config.path q = false) →
      g.Delete fs config = (fs, none) := by
    intro g fs config h
    unfold Git.Delete removeAll
    rw [List.filter_eq_self.mpr]
    intro q hq
    rw [h q hq]
    rfl
  refine ⟨?_, habsent, ?_⟩
  · intro g fs config
    refine ⟨rfl, ?_, ?_⟩
    · intro q hq
      have := (List.mem_filter.mp hq).2
      revert this
      cases inSubtree config.path q <;> simp
    · intro q hq hout
      apply List.mem_filter.mpr
      refine ⟨hq, ?_⟩
      rw [hout]
      rfl
  · intro g fs config
    apply habsent
    intro q hq
    have := (List.mem_filter.mp hq).2
    revert this
    cases inSubtree config.path q <;> simp

/-- Witness for C8 on a concrete filesystem: deleting removes the subtree,
a repeat delete is an errorless no-op, and deleting an absent directory
keeps the filesystem intact. -/
theorem delete_idempotent_witness :
    gitEx.Delete ["/work/repo_alpha_7", "/work/repo_alpha_7/file", "/other"]
        { version := "abc123", path := "/work/repo_alpha_7" } =
      (["/other"], none) ∧
    gitEx.Delete ["/other"]
        { version := "abc123", path := "/work/repo_alpha_7" } =
      (["/other"], none) := by
  constructor
  · decide
  · exact delete_idempotent.2.1 gitEx ["/other"]
      { version := "abc123", path := "/work/repo_alpha_7" } (by decide)

/-- C9: when no repository name can be parsed from the repository URL,
`NewGit` fails with an error, and this happens before any side effect: the
construction performs no git subprocess invocation (the only
directory-creating or network operations in this code), for every
environment. -/
theorem newGit_malformed_url_fails (env : GitEnv)
    (repositoryURL sshPrivateKeyFile : String)
    (hparse : getRepoName repositoryURL = none) :
    (∃ e, (NewGit env repositoryURL sshPrivateKeyFile).1 = .error e) ∧
      (NewGit env repositoryURL sshPrivateKeyFile).2 = [] := by
  unfold NewGit
  rcases habs : env.absWorkdir with e | wd
  · exact ⟨⟨e, rfl⟩, rfl⟩
  · rw [hparse]
    exact ⟨⟨"could not parse repository name from uri: " ++ repositoryURL,
      rfl⟩, rfl⟩

/-- Witness for C9: the empty URL has no parsable repository name and
construction fails without invoking any subprocess. -/
theorem newGit_malformed_url_fails_witness :
    getRepoName "" = none ∧
      (∃ e, (NewGit envEx1 "" "").1 = .error e) ∧
      (NewGit envEx1 "" "").2 = [] := by
  refine ⟨by decide, ?_, ?_⟩
  · exact (newGit_malformed_url_fails envEx1 "" "" (by decide)).1
  · exact (newGit_malformed_url_fails envEx1 "" "" (by decide)).2

/-! ## Lemmas: decimal rendering of the nanosecond timestamp -/

lemma valAux_expand (l : List Char) :
    ∀ a : Nat, valAux a l = a * 10 ^ l.length + valAux 0 l := by
  induction l with
  | nil => intro a; simp [valAux]
  | cons c t ih =>
    intro a
    show valAux (10 * a + digitVal c) t =
      a * 10 ^ (c :: t).length + valAux (10 * 0 + digitVal c) t
    rw [ih (10 * a + digitVal c), ih (10 * 0 + digitVal c),
      List.length_cons, pow_succ]
    ring

lemma digitVal_digitChar {d : Nat} (h : d < 10) :
    digitVal (Nat.digitChar d) = d := by
  interval_cases d <;> rfl

lemma isDigitCh_digitChar {d : Nat} (h : d < 10) :
    isDigitCh (Nat.digitChar d) = true := by
  interval_cases d <;> rfl

lemma toDigitsCore_val : ∀ (fuel n : Nat) (ds : List Char), n < fuel →
    charListVal (Nat.toDigitsCore 10 fuel n ds) =
      n * 10 ^ ds.length + charListVal ds := by
  intro fuel
  induction fuel with
  | zero => intro n ds h; exact absurd h (Nat.not_lt_zero n)
  | succ fuel ih =>
    intro n ds h
    rw [show Nat.toDigitsCore 10 (fuel + 1) n ds =
      if n / 10 = 0 then Nat.digitChar (n % 10) :: ds
      else Nat.toDigitsCore 10 fuel (n / 10) (Nat.digitChar (n % 10) :: ds)
      from rfl]
    by_cases h0 : n / 10 = 0
    · rw [if_pos h0]
      have hm : n % 10 = n := by omega
      rw [show charListVal (Nat.digitChar (n % 10) :: ds) =
        valAux (10 * 0 + digitVal (Nat.digitChar (n % 10))) ds from rfl]
      rw [digitVal_digitChar (Nat.mod_lt n (by norm_num)), valAux_expand ds, hm]
      simp only [charListVal]
      ring
    · rw [if_neg h0]
      have hfuel : n / 10 < fuel := by omega
      rw [ih (n / 10) (Nat.digitChar (n % 10) :: ds) hfuel]
      rw [show charListVal (Nat.digitChar (n % 10) :: ds) =
        valAux (10 * 0 + digitVal (Nat.digitChar (n % 10))) ds from rfl]
      rw [digitVal_digitChar (Nat.mod_lt n (by norm_num)), valAux_expand ds]
      simp only [List.length_cons, charListVal, pow_succ]
      have hdm : 10 * (n / 10) + n % 10 = n := Nat.div_add_mod n 10
      have hsplit : n * 10 ^ ds.length =
          (n / 10) * (10 ^ ds.length * 10) + (n % 10) * 10 ^ ds.length := by
        conv_lhs => rw [← hdm]
        ring
      rw [hsplit]
      ring

lemma charListVal_toDigits (n : Nat) :
    charListVal (Nat.toDigits 10 n) = n := by
  unfold Nat.toDigits
  rw [toDigitsCore_val (n + 1) n [] (Nat.lt_succ_self n)]
  simp [charListVal, valAux]

lemma nat_repr_inj {m n : Nat} (h : Nat.repr m = Nat.repr n) : m = n := by
  have hd : Nat.toDigits 10 m = Nat.toDigits 10 n := congrArg String.data h
  have h1 := charListVal_toDigits m
  rw [hd, charListVal_toDigits n] at h1
  exact h1.symm

lemma toDigitsCore_digits : ∀ (fuel n : Nat) (ds : List Char),
    (∀ c ∈ ds, isDigitCh c = true) →
    ∀ c ∈ Nat.toDigitsCore 10 fuel n ds, isDigitCh c = true := by
  intro fuel
  induction fuel with
  | zero =>
    intro n ds hds c hc
    exact hds c hc
  | succ fuel ih =>
    intro n ds hds
    rw [show Nat.toDigitsCore 10 (fuel + 1) n ds =
      if n / 10 = 0 then Nat.digitChar (n % 10) :: ds
      else Nat.toDigitsCore 10 fuel (n / 10) (Nat.digitChar (n % 10) :: ds)
      from rfl]
    have hd : ∀ c ∈ Nat.digitChar (n % 10) :: ds, isDigitCh c = true := by
      intro c hc
      rcases List.mem_cons.mp hc with rfl | hc2
      · exact isDigitCh_digitChar (Nat.mod_lt n (by norm_num))
      · exact hds c hc2
    by_cases h0 : n / 10 = 0
    · rw [if_pos h0]; exact hd
    · rw [if_neg h0]; exact ih (n / 10) _ hd

lemma repr_digits (n : Nat) : ∀ c ∈ (Nat.repr n).data, isDigitCh c = true := by
  intro c hc
  exact toDigitsCore_digits (n + 1) n [] (by simp) c hc

lemma no_underscore_of_digits {l : List Char}
    (h : ∀ c ∈ l, isDigitCh c = true) : ('_' : Char) ∉ l := by
  intro hmem
  exact absurd (h _ hmem) (by decide)

lemma append_underscore_inj : ∀ (a1 : List Char) {b1 a2 b2 : List Char},
    ('_' : Char) ∉ b1 → ('_' : Char) ∉ b2 →
    a1 ++ '_' :: b1 = a2 ++ '_' :: b2 → a1 = a2 ∧ b1 = b2 := by
  intro a1
  induction a1 with
  | nil =>
    intro b1 a2 b2 h1 h2 heq
    cases a2 with
    | nil => simpa using heq
    | cons c a2 =>
      simp only [List.nil_append, List.cons_append, List.cons.injEq] at heq
      obtain ⟨rfl, heq2⟩ := heq
      exact absurd
        (heq2 ▸ List.mem_append.mpr (Or.inr (List.mem_cons_self _ _))) h1
  | cons c a1 ih =>
    intro b1 a2 b2 h1 h2 heq
    cases a2 with
    | nil =>
      simp only [List.cons_append, List.nil_append, List.cons.injEq] at heq
      obtain ⟨rfl, heq2⟩ := heq
      exact absurd
        (heq2 ▸ List.mem_append.mpr (Or.inr (List.mem_cons_self _ _))) h2
    | cons c2 a2 =>
      simp only [List.cons_append, List.cons.injEq] at heq
      obtain ⟨rfl, heq2⟩ := heq
      obtain ⟨ha, hb⟩ := ih h1 h2 heq2
      exact ⟨by rw [ha], hb⟩

lemma data_append (s t : String) : (s ++ t).data = s.data ++ t.data := rfl

lemma dirName_pair_inj {w r ch1 ch2 : String} {t1 t2 : Nat}
    (h : pathJoin w (r ++ "_" ++ ch1 ++ "_" ++ Nat.repr t1) =
         pathJoin w (r ++ "_" ++ ch2 ++ "_" ++ Nat.repr t2)) :
    ch1 = ch2 ∧ t1 = t2 := by
  have hd := congrArg String.data h
  simp only [pathJoin, data_append, List.append_assoc,
    show ("/" : String).data = ['/'] from rfl,
    show ("_" : String).data = ['_'] from rfl,
    List.singleton_append] at hd
  have hd2 := List.append_cancel_left hd
  simp only [List.cons.injEq, true_and] at hd2
  have hd3 := List.append_cancel_left hd2
  simp only [List.cons.injEq, true_and] at hd3
  rw [List.cons_append, List.cons_append, List.cons.injEq] at hd3
  obtain ⟨-, hd3⟩ := hd3
  obtain ⟨hch, ht⟩ := append_underscore_inj ch1.data
    (no_underscore_of_digits (repr_digits t1))
    (no_underscore_of_digits (repr_digits t2)) hd3
  constructor
  · exact congrArg String.mk hch
  · exact nat_repr_inj (congrArg String.mk ht)

/-! ## Lemmas: checkout paths -/

lemma localClone_ok_dir {g : Git} {env : GitEnv} {channel dir : String}
    {tr : List (List String)}
    (h : g.localClone env channel = (.ok dir, tr)) :
    dir = pathJoin g.workdir
      (g.repoName ++ "_" ++ channel ++ "_" ++ Nat.repr env.nowNano) := by
  unfold Git.localClone runCmd at h
  dsimp only at h
  rcases ho1 : env.runOk ["clone", "file://" ++ g.repoDir,
      pathJoin g.workdir
        (g.repoName ++ "_" ++ channel ++ "_" ++ Nat.repr env.nowNano)]
    with _ | e1
  · rw [ho1] at h
    dsimp only at h
    rcases ho2 : env.runOk ["-C",
        pathJoin g.workdir
          (g.repoName ++ "_" ++ channel ++ "_" ++ Nat.repr env.nowNano),
        "checkout", channel] with _ | e2
    · rw [ho2] at h
      dsimp only at h
      have hfst := congrArg Prod.fst h
      dsimp only at hfst
      exact (Except.ok.inj hfst).symm
    · rw [ho2] at h
      dsimp only at h
      exact nomatch congrArg Prod.fst h
  · rw [ho1] at h
    dsimp only at h
    exact nomatch congrArg Prod.fst h

lemma get_ok_path {g : Git} {env : GitEnv} {channel : String} {cfg : Config}
    {tr : List (List String)} (h : g.Get env channel = (.ok cfg, tr)) :
    cfg.path = pathJoin g.workdir
      (g.repoName ++ "_" ++ channel ++ "_" ++ Nat.repr env.nowNano) := by
  unfold Git.Get at h
  rcases hlc : g.localClone env channel with ⟨lcr, lct⟩
  rw [hlc] at h
  cases lcr with
  | error e =>
    dsimp only at h
    exact nomatch congrArg Prod.fst h
  | ok dir =>
    dsimp only at h
    rcases hcr : currentRevision env dir with ⟨crr, crt⟩
    rw [hcr] at h
    cases crr with
    | error e =>
      dsimp only at h
      exact nomatch congrArg Prod.fst h
    | ok v =>
      dsimp only at h
      have hfst := congrArg Prod.fst h
      dsimp only at hfst
      have hcfg : Config.mk v dir = cfg := Except.ok.inj hfst
      rw [← hcfg]
      exact localClone_ok_dir hlc

/-- C7 counterexample: two distinct `Get` calls — they observe different
subprocess outputs and return different revisions — that read the same
nanosecond clock value return the same path, refuting distinctness of the
paths of arbitrary pairs of calls. -/
theorem get_path_collision_counterexample :
    ∃ cfg1 cfg2 tr1 tr2,
      gitEx.Get envEx1 "alpha" = (.ok cfg1, tr1) ∧
      gitEx.Get envEx2 "alpha" = (.ok cfg2, tr2) ∧
      cfg1.version ≠ cfg2.version ∧
      cfg1.path = cfg2.path := by
  refine ⟨{ version := "abc123", path := "/work/repo_alpha_7" },
    { version := "def456", path := "/work/repo_alpha_7" },
    [["clone", "file:///work/repo", "/work/repo_alpha_7"],
      ["-C", "/work/repo_alpha_7", "checkout", "alpha"],
      ["-C", "/work/repo_alpha_7", "rev-parse", "HEAD"]],
    [["clone", "file:///work/repo", "/work/repo_alpha_7"],
      ["-C", "/work/repo_alpha_7", "checkout", "alpha"],
      ["-C", "/work/repo_alpha_7", "rev-parse", "HEAD"]],
    by rfl, by rfl, by decide, by decide⟩

/-- C7 (amended): every successful `Get` returns a snapshot whose path is
the working directory joined with `{repoName}_{channel}_{t}`, `t` being
the nanosecond timestamp read at call time; and two successful `Get`
calls on the same source return distinct paths whenever they differ in
channel or in observed timestamp — uniqueness rests solely on that pair,
so two calls observing the same channel and timestamp collide. -/
theorem get_path_unique (g : Git) (env1 env2 : GitEnv)
    (channel1 channel2 : String) (cfg1 cfg2 : Config)
    (tr1 tr2 : List (List String))
    (h1 : g.Get env1 channel1 = (.ok cfg1, tr1))
    (h2 : g.Get env2 channel2 = (.ok cfg2, tr2)) :
    cfg1.path = pathJoin g.workdir
        (g.repoName ++ "_" ++ channel1 ++ "_" ++ Nat.repr env1.nowNano) ∧
      (channel1 ≠ channel2 ∨ env1.nowNano ≠ env2.nowNano →
        cfg1.path ≠ cfg2.path) := by
  refine ⟨get_ok_path h1, ?_⟩
  intro hne heq
  rw [get_ok_path h1, get_ok_path h2] at heq
  obtain ⟨hch, ht⟩ := dirName_pair_inj heq
  rcases hne with hne | hne
  · exact hne hch
  · exact hne ht

/-- Witness for the amended C7: a concrete successful `Get` has the stated
path shape, and a second call with a later clock gets a different path. -/
theorem get_path_unique_witness :
    gitEx.Get envEx1 "alpha" =
        (.ok { version := "abc123", path := "/work/repo_alpha_7" },
          [["clone", "file:///work/repo", "/work/repo_alpha_7"],
            ["-C", "/work/repo_alpha_7", "checkout", "alpha"],
            ["-C", "/work/repo_alpha_7", "rev-parse", "HEAD"]]) ∧
      "/work/repo_alpha_7" = pathJoin gitEx.workdir
        (gitEx.repoName ++ "_" ++ "alpha" ++ "_" ++ Nat.repr envEx1.nowNano) ∧
      ∃ cfg2 tr2, gitEx.Get envEx3 "alpha" = (.ok cfg2, tr2) ∧
        "/work/repo_alpha_7" ≠ cfg2.path := by
  have h1 : gitEx.Get envEx1 "alpha" =
      (.ok { version := "abc123", path := "/work/repo_alpha_7" },
        [["clone", "file:///work/repo", "/work/repo_alpha_7"],
          ["-C", "/work/repo_alpha_7", "checkout", "alpha"],
          ["-C", "/work/repo_alpha_7", "rev-parse", "HEAD"]]) := by rfl
  have h3 : gitEx.Get envEx3 "alpha" =
      (.ok { version := "abc123", path := "/work/repo_alpha_8" },
        [["clone", "file:///work/repo", "/work/repo_alpha_8"],
          ["-C", "/work/repo_alpha_8", "checkout", "alpha"],
          ["-C", "/work/repo_alpha_8", "rev-parse", "HEAD"]]) := by rfl
  obtain ⟨hpath, hdistinct⟩ := get_path_unique gitEx envEx1 envEx3
    "alpha" "alpha"
    { version := "abc123", path := "/work/repo_alpha_7" }
    { version := "abc123", path := "/work/repo_alpha_8" } _ _ h1 h3
  refine ⟨h1, hpath, { version := "abc123", path := "/work/repo_alpha_8" },
    _, h3, hdistinct (Or.inr (by decide))⟩
